import Mathlib

/-!
Verification of the statement-level semantic analysis of swan_clang
(src/lib/Sema/SemaStmt.cpp) against its natural-language specification.

The C++ source is shallowly embedded: machine integer values are modelled as
mathematical integers (`Int`) together with an explicit conversion function
for width/signedness adjustment, C integer division (which truncates toward
zero) is `Int.tdiv`, source locations are `Nat` (raw encodings), and the
fallible statement-building entry points return `Option`, with `none`
standing for the invalid sentinel `StmtError()`.
-/

namespace SwanClang

/-! ## Parallel-for (_Cilk_for) trip-count derivation

Embedding of the loop-count computation of `Sema::ActOnCilkForStmt`
(SemaStmt.cpp lines 3935-4114) together with the stride/direction
consistency checks (lines 3981-3996).  The condition has been canonicalised
to the form `var OP limit` (`CanonicalizeCilkForCondOperands` swaps the
operands and negates the direction when the control variable is on the
right; the opcode is only consulted through the sets {LE,GE} and {NE},
which are invariant under mirroring, so the canonical form is faithful). -/

/-- Comparison operators accepted in a `_Cilk_for` condition
(`CheckCilkForCondition`, lines 3799-3813). -/
inductive CilkCmpOp where
  | lt
  | le
  | gt
  | ge
  | ne
deriving DecidableEq, Repr

/-- Direction assigned to each comparison operator
(SemaStmt.cpp lines 3800-3813): `1` for increasing (`<`, `<=`),
`-1` for decreasing (`>`, `>=`), `0` for `!=`. -/
def condDirection : CilkCmpOp → Int
  | .lt => 1
  | .le => 1
  | .gt => -1
  | .ge => -1
  | .ne => 0

/-- Truth of the loop condition `var OP limit` at a given value of the
control variable. -/
def cilkCmpHolds : CilkCmpOp → Int → Int → Bool
  | .lt, a, b => decide (a < b)
  | .le, a, b => decide (a ≤ b)
  | .gt, a, b => decide (b < a)
  | .ge, a, b => decide (b ≤ a)
  | .ne, a, b => decide (a ≠ b)

/-- Consistency check between the loop condition and a compile-time-constant
increment stride, from `Sema::ActOnCilkForStmt` lines 3981-3996: a zero
stride is an error, as is a positive direction with negative stride or a
negative direction with positive stride; on failure the statement is
discarded (`StmtError`). -/
def cilkForStrideConsistent (op : CilkCmpOp) (stride : Int) : Bool :=
  !(stride == 0) &&
    !(decide (0 < condDirection op) && decide (stride < 0)) &&
    !(decide (condDirection op < 0) && decide (0 < stride))

/-- Value of the loop-count expression built by `Sema::ActOnCilkForStmt`
(SemaStmt.cpp lines 3998-4098): `span = end - begin` with the operands
swapped for a decreasing direction, then
`(span + (stride-1)) / stride_dir` for `<`/`>`,
`((span + (stride-1)) + 1) / stride_dir` for `<=`/`>=`
(with `stride_dir = stride` for increasing and `-stride` for decreasing),
and `((stride<0) ? -span : span) / ((stride<0) ? -stride : stride)` for
`!=`.  Division is C division, truncating toward zero (`Int.tdiv`). -/
def cilkForLoopCount (op : CilkCmpOp) (first limit stride : Int) : Int :=
  let span0 : Int := if condDirection op < 0 then first - limit else limit - first
  if op = .ne then
    let spanAdj : Int := if stride < 0 then -span0 else span0
    let strideAdj : Int := if stride < 0 then -stride else stride
    spanAdj.tdiv strideAdj
  else
    let strideDir : Int := if condDirection op = 1 then stride else -stride
    let span1 : Int := span0 + (strideDir - 1)
    let span2 : Int := if op = .le ∨ op = .ge then span1 + 1 else span1
    span2.tdiv strideDir


/-- Exact iteration count of the serial loop
`for (var = first; var OP limit; var += stride)`: the loop makes exactly
`n` iterations when the condition holds at the first `n` values of the
control variable and fails at the `n`-th increment. -/
def isExactTripCount (op : CilkCmpOp) (first limit stride : Int) (n : Nat) : Prop :=
  (∀ k : Nat, k < n → cilkCmpHolds op (first + (k : Int) * stride) limit = true) ∧
    cilkCmpHolds op (first + (n : Int) * stride) limit = false


/-! ## Break-statement checking

Embedding of `Sema::ActOnBreakStmt` (SemaStmt.cpp lines 2457-2473).  The
decision in this function consults `Scope::getBreakParent()` and
`isa<CilkForScopeInfo>(getCurFunction())`; the `Scope` class itself is not
part of this repository, so its break-parent walk is modelled from the
specification (section 4.5). -/

/-- Modelled from the spec: the kinds of scope on the scope chain that are
relevant to `break` resolution (innermost scope first). -/
inductive BreakScope where
  | plainBlock
  | ordinaryLoop
  | switchScope
  | cilkForBody
  | funcBoundary
deriving DecidableEq, Repr

/-- Modelled from the spec: `Scope::getBreakParent` — the nearest enclosing
scope a `break` may exit, searching outward; ordinary loops and switches are
valid targets, while a function boundary and a parallel-loop (`_Cilk_for`)
body stop the search with no target, parallel-loop iterations having no
defined sequential exit point. -/
def getBreakParent : List BreakScope → Option BreakScope
  | [] => none
  | .plainBlock :: rest => getBreakParent rest
  | .ordinaryLoop :: _ => some .ordinaryLoop
  | .switchScope :: _ => some .switchScope
  | .cilkForBody :: _ => none
  | .funcBoundary :: _ => none

/-- The test `isa<CilkForScopeInfo>(getCurFunction())` (line 2463): the
innermost function-like boundary on the chain is a parallel-loop body. -/
def curFunctionIsCilkFor : List BreakScope → Bool
  | [] => false
  | .cilkForBody :: _ => true
  | .funcBoundary :: _ => false
  | .plainBlock :: rest => curFunctionIsCilkFor rest
  | .ordinaryLoop :: rest => curFunctionIsCilkFor rest
  | .switchScope :: rest => curFunctionIsCilkFor rest

inductive BreakDiag where
  | cilkForCannotBreak
  | breakNotInLoopOrSwitch
deriving DecidableEq, Repr

/-- Embedding of `Sema::ActOnBreakStmt` (lines 2457-2473): with no break
parent, a hard error is emitted — err_cilk_for_cannot_break when the current
function scope is a `_Cilk_for` body, err_break_not_in_loop_or_switch
otherwise — and the invalid sentinel is returned; otherwise a `BreakStmt`
is built. -/
def actOnBreakStmt (scopes : List BreakScope) : Except BreakDiag Unit :=
  match getBreakParent scopes with
  | some _ => .ok ()
  | none =>
    if curFunctionIsCilkFor scopes then .error .cilkForCannotBreak
    else .error .breakNotInLoopOrSwitch

/-! ## Range-based for: member begin/end lookup

Embedding of `BuildNonArrayForRange` (SemaStmt.cpp lines 2047-2119). -/

/-- The `Sema::BeginEndFunction` enumeration. -/
inductive BEFKind where
  | befBegin
  | befEnd
deriving DecidableEq, Repr

/-- The `Sema::ForRangeStatus` result of building the begin/end calls. -/
inductive ForRangeStatus where
  | success
  | noViableFunction
  | diagnosticIssued
deriving DecidableEq, Repr

/-- What member lookup finds on the range's class type (empty vs non-empty
`LookupResult` for `begin` and `end`); `isClass` is
`RangeType->getAsCXXRecordDecl()` being non-null. -/
structure RangeTypeInfo where
  isClass : Bool
  hasBeginMember : Bool
  hasEndMember : Bool
deriving DecidableEq, Repr

/-- The diagnostic err_for_range_member_begin_end_mismatch; its payload is
the `BeginEndFunction` value passed at line 2079-2080, which selects the
member that was found (the message then names the other one as missing). -/
inductive RangeDiag where
  | memberBeginEndMismatch (present : BEFKind)
deriving DecidableEq, Repr

/-- The member function the mismatch diagnostic reports as missing: the
message text names the member opposite to the %select payload. -/
def mismatchMissing : RangeDiag → BEFKind
  | .memberBeginEndMismatch .befBegin => .befEnd
  | .memberBeginEndMismatch .befEnd => .befBegin

/-- Embedding of `BuildNonArrayForRange` (lines 2047-2119).  The functions
`memberResolve` and `adlResolve` stand for `BuildForRangeBeginEndCall`
resolving the begin/end call through class member lookup or through
argument-dependent lookup respectively; which of the two is consulted
depends on whether the member lookup found any declaration. -/
def buildNonArrayForRange (rt : RangeTypeInfo)
    (memberResolve adlResolve : BEFKind → ForRangeStatus) :
    ForRangeStatus × List RangeDiag :=
  if rt.isClass ∧ rt.hasBeginMember ≠ rt.hasEndMember then
    (.diagnosticIssued,
      [.memberBeginEndMismatch (if rt.hasBeginMember then .befBegin else .befEnd)])
  else
    let resolve : BEFKind → ForRangeStatus := fun b =>
      if rt.isClass ∧ rt.hasBeginMember then memberResolve b else adlResolve b
    match resolve .befBegin with
    | .success =>
      match resolve .befEnd with
      | .success => (.success, [])
      | s => (s, [])
    | s => (s, [])

/-! ## Switch statement analysis

Embedding of `Sema::ActOnStartOfSwitchStmt`, `Sema::ActOnCaseStmt`,
`Sema::ActOnDefaultStmt` and `Sema::ActOnFinishSwitchStmt`
(SemaStmt.cpp lines 596-657 and 825-1373), restricted to the
non-type-dependent, constant-foldable path. -/

/-- Conversion of a constant to the pre-promotion width and signedness of the
switch condition (`ConvertIntegerToTypeWarnOnOverflow`, lines 727-764, and
`AdjustAPSInt`, lines 916-922): keep the value's low `w` bits and
reinterpret them with the given signedness. -/
def toCondWidth (w : Nat) (signed : Bool) (v : Int) : Int :=
  let m := v % ((2 : Int) ^ w)
  if signed ∧ (2 : Int) ^ (w - 1) ≤ m then m - (2 : Int) ^ w else m

/-- A case label: the constant value of its expression, the optional high
value for a GNU case range, the raw source-location encoding of the case
expression, and the referenced declaration's name when the
paren/cast-stripped case expression is a simple named reference
(`DeclRefExpr`). -/
structure CaseLabel where
  loVal : Int
  hiVal : Option Int
  loc : Nat
  lhsName : Option String
deriving DecidableEq, Repr

/-- One entry of a switch's case list. -/
inductive SwitchLabel where
  | caseLbl (c : CaseLabel)
  | defaultLbl (loc : Nat)
deriving DecidableEq, Repr

/-- The diagnostics emitted by the switch analyzer that this development
models, with the payloads relevant to the claims. -/
inductive SwitchDiag where
  | multipleDefaults (errLoc noteLoc : Nat)
  | duplicateCase (errLoc noteLoc : Nat) (nameArg : Option String) (val : Int)
  | duplicateCaseDiffering (errLoc noteLoc : Nat)
      (prevName currName : Option String) (val : Int)
  | duplicateCaseRange (errLoc noteLoc : Nat) (overlapVal : Int)
  | emptyRange (loc : Nat)
  | missingCaseForCondition (val : Int)
  | notInEnum (loc : Nat) (val : Int)
  | unreachableDefault (loc : Nat)
  | missingCases (hasDefault : Bool) (count : Nat) (names : List String)
  | caseNotInSwitch (loc : Nat)
  | defaultNotInSwitch (loc : Nat)
deriving DecidableEq, Repr

/-- State of the case-list loop of `ActOnFinishSwitchStmt`
(lines 985-1061). -/
structure LabelScan where
  theDefault : Option Nat
  diags : List SwitchDiag
  caseVals : List (Int × CaseLabel)
  caseRanges : List (Int × CaseLabel)
  erroneous : Bool
deriving DecidableEq, Repr

def labelScanInit : LabelScan := ⟨none, [], [], [], false⟩

/-- One step of the case-list loop (lines 989-1061): a second default label
is a hard error reported at the new label with a note at the previous one;
case labels are partitioned into singleton values and ranges, their low
values converted to the pre-promotion width and signedness. -/
def scanLabel (w : Nat) (signed : Bool) (st : LabelScan) :
    SwitchLabel → LabelScan
  | .defaultLbl loc =>
    match st.theDefault with
    | some prev =>
      { st with
        theDefault := some loc
        diags := st.diags ++ [.multipleDefaults loc prev]
        erroneous := true }
    | none => { st with theDefault := some loc }
  | .caseLbl c =>
    let lo := toCondWidth w signed c.loVal
    match c.hiVal with
    | some _ => { st with caseRanges := st.caseRanges ++ [(lo, c)] }
    | none => { st with caseVals := st.caseVals ++ [(lo, c)] }

def scanLabels (w : Nat) (signed : Bool) (ls : List SwitchLabel) : LabelScan :=
  ls.foldl (scanLabel w signed) labelScanInit

/-- The strict comparison `CmpCaseVals` (lines 785-795): by value, then by
raw source-location encoding. -/
def cmpCaseVals (a b : Int × CaseLabel) : Prop :=
  a.1 < b.1 ∨ (a.1 = b.1 ∧ a.2.loc < b.2.loc)

/-- The matching non-strict order: after `std::stable_sort` with
`CmpCaseVals`, consecutive elements `x, y` satisfy `¬ CmpCaseVals y x`,
which is exactly `caseLE x y`. -/
def caseLE (a b : Int × CaseLabel) : Prop :=
  a.1 < b.1 ∨ (a.1 = b.1 ∧ a.2.loc ≤ b.2.loc)

instance : DecidableRel cmpCaseVals := fun _ _ => by
  unfold cmpCaseVals; infer_instance

instance : DecidableRel caseLE := fun _ _ => by
  unfold caseLE; infer_instance

instance : IsTotal (Int × CaseLabel) caseLE where
  total a b := by
    unfold caseLE
    rcases lt_trichotomy a.1 b.1 with h | h | h
    · exact Or.inl (Or.inl h)
    · rcases Nat.le_total a.2.loc b.2.loc with h2 | h2
      · exact Or.inl (Or.inr ⟨h, h2⟩)
      · exact Or.inr (Or.inr ⟨h.symm, h2⟩)
    · exact Or.inr (Or.inl h)

instance : IsTrans (Int × CaseLabel) caseLE where
  trans a b c hab hbc := by
    unfold caseLE at *
    rcases hab with h1 | ⟨h1, h1'⟩ <;> rcases hbc with h2 | ⟨h2, h2'⟩
    · exact Or.inl (h1.trans h2)
    · exact Or.inl (h2 ▸ h1)
    · exact Or.inl (h1 ▸ h2)
    · exact Or.inr ⟨h1.trans h2, h1'.trans h2'⟩



/-- The sort of the singleton case values (line 1079,
`std::stable_sort(CaseVals.begin(), CaseVals.end(), CmpCaseVals)`). -/
def sortCaseVals (l : List (Int × CaseLabel)) : List (Int × CaseLabel) :=
  List.insertionSort caseLE l

/-- The sort of the case ranges by low value (line 1127).  The source sorts
`std::pair<llvm::APSInt, CaseStmt*>` with the default pair comparison, which
breaks ties on equal low values by pointer comparison; ties are modelled as
source-location order (they can only matter for overlapping ranges, which
are hard errors either way). -/
def sortCaseRanges (l : List (Int × CaseLabel)) : List (Int × CaseLabel) :=
  List.insertionSort caseLE l

/-- Selection of the duplicate-case diagnostic (lines 1087-1114): if the two
case expressions have the same referenced-declaration name (including both
having none), err_duplicate_case is emitted with the name if present and the
printed value otherwise; otherwise err_duplicate_case_differing_expr is
emitted with both names (each falling back to the printed value) and the
value.  The error is located at the later occurrence, with a note at the
earlier one. -/
def dupDiagFor (prev curr : Int × CaseLabel) : SwitchDiag :=
  if prev.2.lhsName = curr.2.lhsName then
    .duplicateCase curr.2.loc prev.2.loc prev.2.lhsName prev.1
  else
    .duplicateCaseDiffering curr.2.loc prev.2.loc prev.2.lhsName
      curr.2.lhsName prev.1

/-- The adjacent-duplicate scan over the sorted singleton values
(lines 1081-1120). -/
def findDupDiags : List (Int × CaseLabel) → List SwitchDiag
  | [] => []
  | [_] => []
  | a :: b :: rest =>
    (if a.1 = b.1 then [dupDiagFor a b] else []) ++ findDupDiags (b :: rest)

/-- The empty-range elimination loop (lines 1129-1180): each range's high
value is converted to the condition's width and signedness; a range whose
low value exceeds its high value is dropped with a single advisory
(warn_case_empty_range); the remaining ranges are kept with their converted
high values. -/
def processRanges (w : Nat) (signed : Bool) :
    List (Int × CaseLabel) → List SwitchDiag × List (Int × Int × CaseLabel)
  | [] => ([], [])
  | (lo, c) :: rest =>
    let hi := toCondWidth w signed (c.hiVal.getD 0)
    let (ds, ks) := processRanges w signed rest
    if hi < lo then (.emptyRange c.loc :: ds, ks)
    else (ds, (lo, hi, c) :: ks)

/-- Whether a range entry is degenerate: its converted high value is below
its (already converted) low value (the `LoVal > HiVal` test at line 1165). -/
def isDegenerate (w : Nat) (signed : Bool) (p : Int × CaseLabel) : Bool :=
  decide (toCondWidth w signed (p.2.hiVal.getD 0) < p.1)

/-- Whether a label is a range case that is degenerate after conversion to
the condition's width and signedness. -/
def isDegenerateLabel (w : Nat) (signed : Bool) : SwitchLabel → Bool
  | .caseLbl c =>
    match c.hiVal with
    | some h => decide (toCondWidth w signed h < toCondWidth w signed c.loVal)
    | none => false
  | .defaultLbl _ => false

/-- Whether a diagnostic is the empty-range advisory. -/
def isEmptyRangeDiag : SwitchDiag → Bool
  | .emptyRange _ => true
  | _ => false

/-- The overlap test for one range (lines 1190-1217): a binary search for
the smallest singleton ≥ the low bound (overlap when strictly below the high
bound), then for the largest singleton ≤ the high bound (overlap when ≥ the
low bound), then the neighbor test against the previous kept range; a later
successful test overwrites the overlap value and statement of an earlier
one. -/
def overlapCheckOne (sortedVals : List (Int × CaseLabel)) (lo hi : Int)
    (prev : Option (Int × CaseLabel)) : Option (Int × CaseLabel) :=
  let a : Option (Int × CaseLabel) :=
    match (sortedVals.dropWhile (fun p => decide (p.1 < lo))).head? with
    | some p => if p.1 < hi then some p else none
    | none => none
  let b : Option (Int × CaseLabel) :=
    match (sortedVals.takeWhile (fun p => decide (p.1 ≤ hi))).getLast? with
    | some p => if lo ≤ p.1 then some p else none
    | none => none
  let c : Option (Int × CaseLabel) :=
    match prev with
    | some (phi, pc) => if lo ≤ phi then some (phi, pc) else none
    | none => none
  c.orElse fun _ => b.orElse fun _ => a

/-- The overlap scan over the kept, sorted ranges (lines 1185-1229): each
detected overlap is a hard error (err_duplicate_case at the range with a
note at the overlapping statement), and sets the erroneous flag. -/
def overlapScan (sortedVals : List (Int × CaseLabel)) :
    List (Int × Int × CaseLabel) → Option (Int × CaseLabel) →
      List SwitchDiag × Bool
  | [], _ => ([], false)
  | (lo, hi, c) :: rest, prev =>
    let o := overlapCheckOne sortedVals lo hi prev
    let d : List SwitchDiag :=
      match o with
      | some (v, oc) => [.duplicateCaseRange c.loc oc.loc v]
      | none => []
    let (ds, e) := overlapScan sortedVals rest (some (hi, c))
    (d ++ ds, o.isSome || e)

/-- An enumerator of the condition's enumeration type: its initializing
value and its declared name. -/
structure EnumConst where
  val : Int
  name : String
deriving DecidableEq, Repr

/-- The order `CmpEnumVals` (lines 799-803), by value only; the stable sort
keeps declaration order among equal values. -/
def enumLE (a b : Int × String) : Prop := a.1 ≤ b.1

instance : DecidableRel enumLE := fun _ _ => by
  unfold enumLE; infer_instance

instance : IsTotal (Int × String) enumLE where
  total a b := le_total a.1 b.1

instance : IsTrans (Int × String) enumLE where
  trans _ _ _ hab hbc := le_trans hab hbc

def sortEnumVals (l : List (Int × String)) : List (Int × String) :=
  List.insertionSort enumLE l

/-- The tail of `std::unique` with `EqEnumVals`: drop elements whose value
equals the last kept element's, keep the others. -/
def dedupFrom (a : Int × String) : List (Int × String) → List (Int × String)
  | [] => []
  | b :: rest => if a.1 = b.1 then dedupFrom a rest else b :: dedupFrom b rest

/-- `std::unique` with `EqEnumVals` (lines 805-811, 1264-1265) on the sorted
enumerator list: of each run of equal values, the first is kept. -/
def dedupSorted : List (Int × String) → List (Int × String)
  | [] => []
  | a :: rest => a :: dedupFrom a rest

/-- The deduplicated sorted enumerator value list of the condition's enum
type, each value adjusted to the condition's width and signedness
(lines 1251-1265). -/
def switchEnumUniq (w : Nat) (signed : Bool) (enums : List EnumConst) :
    List (Int × String) :=
  dedupSorted (sortEnumVals (enums.map fun e => (toCondWidth w signed e.val, e.name)))

/-- The scan reporting singleton case values absent from the enum
(lines 1267-1276): a single enumerator iterator advances past values below
each (sorted) case value; warn_not_in_enum is emitted when it lands past the
case value or at the end. -/
def scanCaseValsNotInEnum : List Int → List (Int × CaseLabel) → List SwitchDiag
  | _, [] => []
  | eis, (v, c) :: cs =>
    let eis' := eis.dropWhile (fun e => decide (e < v))
    (match eis'.head? with
     | none => [.notInEnum c.loc v]
     | some e => if v < e then [.notInEnum c.loc v] else []) ++
      scanCaseValsNotInEnum eis' cs

/-- The scan reporting range endpoints absent from the enum
(lines 1277-1297).  The enclosing loop runs only while the enumerator
iterator has not reached the end (`RI != CaseRanges.end() && EI != EIend`),
so once the enumerator list is exhausted the remaining ranges are skipped
without any report. -/
def scanRangesNotInEnum : List Int → List (Int × Int × CaseLabel) → List SwitchDiag
  | _, [] => []
  | [], _ :: _ => []
  | e0 :: es, (lo, hi, c) :: rs =>
    let e1 := (e0 :: es).dropWhile (fun e => decide (e < lo))
    let d1 : List SwitchDiag :=
      match e1.head? with
      | none => [.notInEnum c.loc lo]
      | some e => if e ≠ lo then [.notInEnum c.loc lo] else []
    let e2 := e1.dropWhile (fun e => decide (e < hi))
    let d2 : List SwitchDiag :=
      match e2.head? with
      | none => [.notInEnum c.loc hi]
      | some e => if e ≠ hi then [.notInEnum c.loc hi] else []
    d1 ++ d2 ++ scanRangesNotInEnum e2 rs

/-- The scan collecting enumerators not covered by any case or range
(lines 1299-1328): the case-value and range iterators advance monotonically
across the sorted enumerator list; an enumerator neither equal to a case
value nor inside the next range with high value ≥ it is unhandled. -/
def scanUnhandledEnum :
    List (Int × CaseLabel) → List (Int × Int × CaseLabel) →
      List (Int × String) → List String
  | _, _, [] => []
  | cs, rs, (ev, en) :: es =>
    let cs' := cs.dropWhile (fun p => decide (p.1 < ev))
    if cs'.head?.elim false (fun p => p.1 = ev) then
      scanUnhandledEnum cs' rs es
    else
      let rs' := rs.dropWhile (fun r => decide (r.2.1 < ev))
      let unhandled : Bool :=
        match rs'.head? with
        | none => true
        | some r => decide (ev < r.1)
      (if unhandled then [en] else []) ++ scanUnhandledEnum cs' rs' es

/-- The enum-coverage analysis (lines 1246-1361), run when the pre-promotion
condition type is an enumeration, no case-list error has occurred, and the
condition was not evaluated to a constant: values not in the enum are
advisories; a default with full coverage gets warn_unreachable_default; the
missing-enumerator advisory names up to three enumerators and otherwise
falls back to the count-carrying variant; the second component is the
all-enum-cases-covered flag. -/
def enumAnalysis (w : Nat) (signed : Bool) (enums : List EnumConst)
    (sortedVals : List (Int × CaseLabel)) (kept : List (Int × Int × CaseLabel))
    (theDefault : Option Nat) : List SwitchDiag × Bool :=
  let uniq := switchEnumUniq w signed enums
  let evs := uniq.map Prod.fst
  let d1 := scanCaseValsNotInEnum evs sortedVals
  let d2 := scanRangesNotInEnum evs kept
  let unh := scanUnhandledEnum sortedVals kept uniq
  let d3 : List SwitchDiag :=
    match theDefault with
    | some dloc => if unh = [] then [.unreachableDefault dloc] else []
    | none => []
  let d4 : List SwitchDiag :=
    if unh = [] then []
    else [.missingCases theDefault.isSome unh.length (unh.take 3)]
  (d1 ++ d2 ++ d3 ++ d4, unh.isEmpty)

/-- The switch condition data consumed by `ActOnFinishSwitchStmt`: the
pre-promotion width and signedness, the constant value of the condition when
`EvaluateAsInt` succeeds on it (already at that width and signedness, as the
source asserts at lines 1072-1074), and the enumerator list when the
pre-promotion type is an enumeration. -/
structure SwitchCond where
  width : Nat
  signd : Bool
  constVal : Option Int
  enumInfo : Option (List EnumConst)
deriving DecidableEq, Repr

/-- Result of the case-list validation of `ActOnFinishSwitchStmt`
(lines 963-1361): the emitted diagnostics, the CaseListIsErroneous flag, and
the all-enum-cases-covered flag. -/
structure SwitchAnalysis where
  diags : List SwitchDiag
  erroneous : Bool
  allEnumCovered : Bool
deriving DecidableEq, Repr

/-- The sorted singleton case values of a switch, as consumed by the
duplicate and overlap detection of `finishSwitchAnalysis`. -/
def switchSortedVals (cond : SwitchCond) (ls : List SwitchLabel) :
    List (Int × CaseLabel) :=
  sortCaseVals (scanLabels cond.width cond.signd ls).caseVals

/-- The kept (non-degenerate) sorted case ranges of a switch with their
converted high values, as consumed by the overlap detection and the enum
analysis of `finishSwitchAnalysis`. -/
def switchKeptRanges (cond : SwitchCond) (ls : List SwitchLabel) :
    List (Int × Int × CaseLabel) :=
  (processRanges cond.width cond.signd
    (sortCaseRanges (scanLabels cond.width cond.signd ls).caseRanges)).2

/-- The advisories of the empty-range elimination loop. -/
def switchRangeDiags (cond : SwitchCond) (ls : List SwitchLabel) :
    List SwitchDiag :=
  (processRanges cond.width cond.signd
    (sortCaseRanges (scanLabels cond.width cond.signd ls).caseRanges)).1

/-- The `CaseListIsErroneous` flag of `ActOnFinishSwitchStmt`: a duplicate
default label, a duplicate singleton value, or an overlap. -/
def switchErroneous (cond : SwitchCond) (ls : List SwitchLabel) : Bool :=
  (scanLabels cond.width cond.signd ls).erroneous
    || !(findDupDiags (switchSortedVals cond ls)).isEmpty
    || (overlapScan (switchSortedVals cond ls) (switchKeptRanges cond ls) none).2

/-- The `HasConstantCond` flag (lines 1066-1075): computed only when there
is no default label, from `EvaluateAsInt` on the pre-promotion condition. -/
def switchHasConstCond (cond : SwitchCond) (ls : List SwitchLabel) : Bool :=
  (scanLabels cond.width cond.signd ls).theDefault.isNone && cond.constVal.isSome

/-- The warn_missing_case_for_condition advisory (lines 1232-1239): with a
constant condition, no default, no case-list error, and no singleton or
kept range matching the constant. -/
def switchConstCondDiags (cond : SwitchCond) (ls : List SwitchLabel) :
    List SwitchDiag :=
  match cond.constVal with
  | some cv =>
    if !switchErroneous cond ls && switchHasConstCond cond ls
        && !((switchSortedVals cond ls).any (fun p => p.1 == cv)
            || (switchKeptRanges cond ls).any
                (fun r => decide (r.1 ≤ cv) && decide (cv ≤ r.2.1)))
    then [.missingCaseForCondition cv]
    else []
  | none => []

/-- The enum-coverage analysis as gated at line 1249:
`!CaseListIsErroneous && !HasConstantCond && ET`. -/
def switchEnumResult (cond : SwitchCond) (ls : List SwitchLabel) :
    List SwitchDiag × Bool :=
  match cond.enumInfo with
  | some enums =>
    if !switchErroneous cond ls && !switchHasConstCond cond ls then
      enumAnalysis cond.width cond.signd enums (switchSortedVals cond ls)
        (switchKeptRanges cond ls)
        (scanLabels cond.width cond.signd ls).theDefault
    else ([], false)
  | none => ([], false)

/-- The case-list validation of `ActOnFinishSwitchStmt` (lines 963-1361):
scan the labels, sort the singleton values and detect duplicates, sort the
ranges, drop empty ranges, detect overlaps, check a constant condition for a
matching case, and run the enum-coverage analysis; the diagnostics are
emitted in that order. -/
def finishSwitchAnalysis (cond : SwitchCond) (ls : List SwitchLabel) :
    SwitchAnalysis :=
  { diags := (scanLabels cond.width cond.signd ls).diags
      ++ findDupDiags (switchSortedVals cond ls)
      ++ switchRangeDiags cond ls
      ++ (overlapScan (switchSortedVals cond ls) (switchKeptRanges cond ls) none).1
      ++ switchConstCondDiags cond ls
      ++ (switchEnumResult cond ls).1
    erroneous := switchErroneous cond ls
    allEnumCovered := (switchEnumResult cond ls).2 }

/-- A switch statement node: its condition data, its case list (in the
linked-list order of `getSwitchCaseList`, newest label first, since
`addSwitchCase` links at the head), its body once attached, and the
all-enum-cases-covered flag. -/
structure SwitchNode where
  cond : SwitchCond
  labels : List SwitchLabel
  body : Option Nat
  allEnumCasesCovered : Bool
deriving DecidableEq, Repr

/-- The per-function-scope switch stack (`getCurFunction()->SwitchStack`),
innermost switch first. -/
structure FuncScopeState where
  switchStack : List SwitchNode
deriving DecidableEq, Repr

/-- Embedding of `Sema::ActOnStartOfSwitchStmt` (lines 909-913): a new
switch node is built and pushed onto the switch stack. -/
def actOnStartOfSwitchStmt (st : FuncScopeState) (cond : SwitchCond) :
    FuncScopeState × SwitchNode :=
  let sw : SwitchNode := ⟨cond, [], none, false⟩
  (⟨sw :: st.switchStack⟩, sw)

/-- `SwitchStack.back()->addSwitchCase(...)`: link the new label at the head
of the innermost switch's case list. -/
def addSwitchCase (st : FuncScopeState) (l : SwitchLabel) : FuncScopeState :=
  match st.switchStack with
  | [] => st
  | sw :: rest => ⟨{ sw with labels := l :: sw.labels } :: rest⟩

/-- Result of `Sema::ActOnCaseStmt`. -/
inductive CaseStmtResult where
  | invalid
  | caseStmt (c : CaseLabel)
deriving DecidableEq, Repr

/-- Result of `Sema::ActOnDefaultStmt`. -/
inductive DefaultStmtResult where
  | invalid
  | ownedSubStmt (sub : Nat)
  | defaultStmt (loc : Nat) (sub : Nat)
deriving DecidableEq, Repr

/-- Embedding of `Sema::ActOnCaseStmt` (lines 596-634), on the non-dependent
constant-foldable path: with no open switch, err_case_not_in_switch is
emitted and the invalid sentinel returned; otherwise the case statement is
built and added to the innermost switch. -/
def actOnCaseStmt (st : FuncScopeState) (c : CaseLabel) :
    FuncScopeState × List SwitchDiag × CaseStmtResult :=
  if st.switchStack.isEmpty then
    (st, [.caseNotInSwitch c.loc], .invalid)
  else
    (addSwitchCase st (.caseLbl c), [], .caseStmt c)

/-- Embedding of `Sema::ActOnDefaultStmt` (lines 644-657): with no open
switch, err_default_not_in_switch is emitted but the label's sub-statement
is returned as a valid result (`Owned(SubStmt)`); otherwise the default
statement is built and added to the innermost switch. -/
def actOnDefaultStmt (st : FuncScopeState) (loc sub : Nat) :
    FuncScopeState × List SwitchDiag × DefaultStmtResult :=
  if st.switchStack.isEmpty then
    (st, [.defaultNotInSwitch loc], .ownedSubStmt sub)
  else
    (addSwitchCase st (.defaultLbl loc), [], .defaultStmt loc sub)

/-- Result of `Sema::ActOnFinishSwitchStmt`: the updated scope state, the
switch node after body attachment (`node`), the returned statement —
`none` standing for `StmtError()` — and the emitted diagnostics. -/
structure FinishSwitchResult where
  state : FuncScopeState
  node : Option SwitchNode
  result : Option SwitchNode
  diags : List SwitchDiag
deriving DecidableEq, Repr

/-- Embedding of `Sema::ActOnFinishSwitchStmt` (lines 924-1373): the switch
on top of the stack (asserted to be the one being finished) has its body
attached and is popped before any case-list validation; the case list is
then validated, and the whole statement is discarded (the invalid sentinel)
exactly when the case list is erroneous. -/
def actOnFinishSwitchStmt (st : FuncScopeState) (body : Nat) :
    FinishSwitchResult :=
  match st.switchStack with
  | [] => ⟨st, none, none, []⟩
  | sw :: rest =>
    let an := finishSwitchAnalysis sw.cond sw.labels
    let sw1 : SwitchNode :=
      { sw with body := some body, allEnumCasesCovered := an.allEnumCovered }
    ⟨⟨rest⟩, some sw1, if an.erroneous then none else some sw1, an.diags⟩


/-! ## Cilk spawn position checking

Embedding of `Sema::DiagnoseCilkSpawn` (SemaStmt.cpp lines 350-524) and the
visitor `DiagnoseCilkSpawnHelper` (lines 316-336) on a miniature expression
and statement syntax covering the forms the claim quantifies over: calls
(spawned or not, builtin or not), simple assignment, another binary operator
standing for all non-assignment operators, implicit casts (standing for the
wrapper nodes peeled at lines 488-506), literals and variable references;
statements: expression statements, single-variable declarations, compound
statements (skipped, they are checked separately), if and while (the other
recursive statement kinds at lines 358-450 follow the same pattern). -/

/-- A miniature C expression. -/
inductive CExpr where
  | spawnCall (builtin : Bool) (args : List CExpr)
  | call (args : List CExpr)
  | assign (lhs rhs : CExpr)
  | binOp (lhs rhs : CExpr)
  | castE (sub : CExpr)
  | litE
  | varE

/-- A miniature C statement; `nullS` stands for an absent else branch. -/
inductive CStmt where
  | exprS (e : CExpr)
  | declS (isStatic : Bool) (init : Option CExpr)
  | compoundS
  | nullS
  | ifS (cond : CExpr) (thn : CStmt) (els : CStmt)
  | whileS (cond : CExpr) (body : CStmt)

mutual

/-- Number of spawn-call nodes in an expression (the spec-side notion of a
spawn occurrence). -/
def spawnCount : CExpr → Nat
  | .spawnCall _ args => 1 + spawnCountList args
  | .call args => spawnCountList args
  | .assign l r => spawnCount l + spawnCount r
  | .binOp l r => spawnCount l + spawnCount r
  | .castE e => spawnCount e
  | .litE => 0
  | .varE => 0

def spawnCountList : List CExpr → Nat
  | [] => 0
  | e :: es => spawnCount e + spawnCountList es

end

mutual

/-- The visitor `DiagnoseCilkSpawnHelper` (lines 316-336): it traverses the
whole expression (not descending into compound statements, which cannot
occur inside these expressions) and sets `HasError`, emitting
err_spawn_not_whole_expr, whenever it meets a spawn call. -/
def helperHasSpawn : CExpr → Bool
  | .spawnCall _ _ => true
  | .call args => helperHasSpawnList args
  | .assign l r => helperHasSpawn l || helperHasSpawn r
  | .binOp l r => helperHasSpawn l || helperHasSpawn r
  | .castE e => helperHasSpawn e
  | .litE => false
  | .varE => false

def helperHasSpawnList : List CExpr → Bool
  | [] => false
  | e :: es => helperHasSpawn e || helperHasSpawnList es

end

/-- The peeling loop over the right-hand side (lines 488-506): strip the
wrapper nodes (implicit casts, cleanup and temporary wrappers). -/
def peelRHS : CExpr → CExpr
  | .castE e => peelRHS e
  | e => e

/-- The right-hand-side handling of `DiagnoseCilkSpawn` (lines 508-523):
after peeling, a spawn call in right-hand-side position is itself accepted
and only its arguments are traversed; anything else is traversed whole. -/
def handleSpawnRHS (rhs : CExpr) : Bool :=
  match peelRHS rhs with
  | .spawnCall _ args => helperHasSpawnList args
  | r => helperHasSpawn r

/-- Whether `Sema::DiagnoseCilkSpawn` (lines 350-524) sets `HasError`
through err_spawn_not_whole_expr on the given statement: a spawn call is
accepted as the whole expression statement, as the whole (peeled) right-hand
side of a simple assignment, or as the sole (peeled) initializer of a
single-variable declaration; every other spawn occurrence is an error. -/
def diagnoseCilkSpawnErr : CStmt → Bool
  | .compoundS => false
  | .nullS => false
  | .exprS (.assign l r) => helperHasSpawn l || handleSpawnRHS r
  | .exprS (.spawnCall _ args) => helperHasSpawnList args
  | .exprS (.call args) => helperHasSpawnList args
  | .exprS (.binOp l r) => helperHasSpawn (.binOp l r)
  | .exprS (.castE e) => helperHasSpawn (.castE e)
  | .exprS .litE => false
  | .exprS .varE => false
  | .declS _ none => false
  | .declS _ (some i) => handleSpawnRHS i
  | .ifS c t e =>
    helperHasSpawn c || diagnoseCilkSpawnErr t || diagnoseCilkSpawnErr e
  | .whileS c b => helperHasSpawn c || diagnoseCilkSpawnErr b

/-- Spec-side: the number of spawn calls sitting in a permitted syntactic
position of the statement (each of the three permitted positions holds at
most one). -/
def permittedSpawnCount : CStmt → Nat
  | .exprS (.spawnCall _ _) => 1
  | .exprS (.assign _ r) =>
    match peelRHS r with
    | .spawnCall _ _ => 1
    | _ => 0
  | .declS _ (some i) =>
    match peelRHS i with
    | .spawnCall _ _ => 1
    | _ => 0
  | .ifS _ t e => permittedSpawnCount t + permittedSpawnCount e
  | .whileS _ b => permittedSpawnCount b
  | _ => 0

/-- Spec-side: the total number of spawn calls in the statement. -/
def spawnCountStmt : CStmt → Nat
  | .exprS e => spawnCount e
  | .declS _ none => 0
  | .declS _ (some i) => spawnCount i
  | .compoundS => 0
  | .nullS => 0
  | .ifS c t e => spawnCount c + spawnCountStmt t + spawnCountStmt e
  | .whileS c b => spawnCount c + spawnCountStmt b

/-- The singleton-case entry a label contributes to `CaseVals` (value
converted to the pre-promotion width/signedness), if any. -/
def singletonEntry (w : Nat) (signed : Bool) : SwitchLabel → Option (Int × CaseLabel)
  | .caseLbl c => if c.hiVal = none then some (toCondWidth w signed c.loVal, c) else none
  | .defaultLbl _ => none

/-- The range entry a label contributes to `CaseRanges` (low value converted
to the pre-promotion width/signedness), if any. -/
def rangeEntry (w : Nat) (signed : Bool) : SwitchLabel → Option (Int × CaseLabel)
  | .caseLbl c =>
    match c.hiVal with
    | some _ => some (toCondWidth w signed c.loVal, c)
    | none => none
  | .defaultLbl _ => none

/-- Whether a label is a default label. -/
def isDefaultLbl : SwitchLabel → Bool
  | .defaultLbl _ => true
  | .caseLbl _ => false

/-- Whether a diagnostic's message mentions the given declaration name. -/
def diagMentionsName (n : String) : SwitchDiag → Bool
  | .duplicateCase _ _ (some m) _ => m == n
  | .duplicateCaseDiffering _ _ p c _ => p == some n || c == some n
  | _ => false

/-- Whether a diagnostic's message prints the given numeric value. -/
def diagPrintsVal (v : Int) : SwitchDiag → Bool
  | .duplicateCase _ _ none v' => v == v'
  | .duplicateCaseDiffering _ _ _ _ v' => v == v'
  | .duplicateCaseRange _ _ v' => v == v'
  | .missingCaseForCondition v' => v == v'
  | .notInEnum _ v' => v == v'
  | _ => false

/-- A concrete switch condition for witnesses: 8-bit signed, no constant
value, no enum type. -/
def plainCond : SwitchCond := ⟨8, true, none, none⟩

/-- A concrete case list with a duplicated singleton value 1. -/
def dupLabels : List SwitchLabel :=
  [.caseLbl ⟨1, none, 10, none⟩, .caseLbl ⟨1, none, 20, none⟩]

/-- Spec-side: whether an enumerator value is covered by a singleton case
value or by a kept case range, the coverage notion of the enum analysis. -/
def enumCovered (cs : List (Int × CaseLabel)) (rs : List (Int × Int × CaseLabel))
    (v : Int) : Bool :=
  cs.any (fun q => q.1 == v)
    || rs.any (fun r => decide (r.1 ≤ v) && decide (v ≤ r.2.1))

/-- A concrete two-enumerator enumeration. -/
def c4enums : List EnumConst := [⟨0, "A"⟩, ⟨1, "B"⟩]

/-- A concrete switch condition over that enumeration, with no constant
value. -/
def c4cond : SwitchCond := ⟨8, true, none, some c4enums⟩

/-- A concrete case range 0...5. -/
def c4range1 : CaseLabel := ⟨0, some 5, 1, none⟩

/-- A concrete case range 7...8, both endpoints outside the enumeration. -/
def c4range2 : CaseLabel := ⟨7, some 8, 2, none⟩

/-- A concrete case list with the two ranges. -/
def c4ls : List SwitchLabel := [.caseLbl c4range1, .caseLbl c4range2]

/-- A concrete case list with the singleton value 3 (outside the
enumeration) and a default label. -/
def c4wls : List SwitchLabel := [.caseLbl ⟨3, none, 5, none⟩, .defaultLbl 9]

/-! ## Theorems -/

theorem cilkForLoopCount_lt (first limit stride : Int) :
    cilkForLoopCount .lt first limit stride
      = (limit - first + (stride - 1)).tdiv stride := rfl

theorem cilkForLoopCount_le (first limit stride : Int) :
    cilkForLoopCount .le first limit stride
      = (limit - first + (stride - 1) + 1).tdiv stride := rfl

theorem cilkForLoopCount_gt (first limit stride : Int) :
    cilkForLoopCount .gt first limit stride
      = (first - limit + (-stride - 1)).tdiv (-stride) := rfl

theorem cilkForLoopCount_ge (first limit stride : Int) :
    cilkForLoopCount .ge first limit stride
      = (first - limit + (-stride - 1) + 1).tdiv (-stride) := rfl

theorem cilkForLoopCount_ne_eq (first limit stride : Int) :
    cilkForLoopCount .ne first limit stride
      = (if stride < 0 then -(limit - first) else limit - first).tdiv
          (if stride < 0 then -stride else stride) := rfl

/-! Arithmetic facts about the two span adjustments, shared between the
increasing and decreasing directions. -/

theorem tdiv_open_spec (span s : Int) (hs : 0 < s) (hspan : 0 ≤ span) :
    0 ≤ (span + (s - 1)).tdiv s ∧
      span ≤ ((span + (s - 1)).tdiv s) * s ∧
      ∀ k : Int, 0 ≤ k → k < (span + (s - 1)).tdiv s → k * s < span := by
  have ha : (0 : Int) ≤ span + (s - 1) := by omega
  rw [Int.tdiv_eq_ediv ha (le_of_lt hs)]
  have hmod := Int.ediv_add_emod (span + (s - 1)) s
  have h0 : 0 ≤ (span + (s - 1)) % s := Int.emod_nonneg _ (ne_of_gt hs)
  have h1 : (span + (s - 1)) % s < s := Int.emod_lt_of_pos _ hs
  set q := (span + (s - 1)) / s with hq
  have hsq : s * q = span + (s - 1) - (span + (s - 1)) % s := by linarith
  refine ⟨Int.ediv_nonneg ha (le_of_lt hs), ?_, ?_⟩
  · have : q * s = s * q := mul_comm _ _
    linarith
  · intro k hk0 hk
    have hks : k * s ≤ (q - 1) * s :=
      mul_le_mul_of_nonneg_right (by omega) (le_of_lt hs)
    have hexp : (q - 1) * s = s * q - s := by ring
    linarith

theorem tdiv_closed_spec (span s : Int) (hs : 0 < s) (hspan : 0 ≤ span) :
    0 ≤ (span + (s - 1) + 1).tdiv s ∧
      span < ((span + (s - 1) + 1).tdiv s) * s ∧
      ∀ k : Int, 0 ≤ k → k < (span + (s - 1) + 1).tdiv s → k * s ≤ span := by
  have ha : (0 : Int) ≤ span + (s - 1) + 1 := by omega
  rw [Int.tdiv_eq_ediv ha (le_of_lt hs)]
  have hmod := Int.ediv_add_emod (span + (s - 1) + 1) s
  have h0 : 0 ≤ (span + (s - 1) + 1) % s := Int.emod_nonneg _ (ne_of_gt hs)
  have h1 : (span + (s - 1) + 1) % s < s := Int.emod_lt_of_pos _ hs
  set q := (span + (s - 1) + 1) / s with hq
  have hsq : s * q = span + s - (span + (s - 1) + 1) % s := by linarith
  refine ⟨Int.ediv_nonneg ha (le_of_lt hs), ?_, ?_⟩
  · have : q * s = s * q := mul_comm _ _
    linarith
  · intro k hk0 hk
    have hks : k * s ≤ (q - 1) * s :=
      mul_le_mul_of_nonneg_right (by omega) (le_of_lt hs)
    have hexp : (q - 1) * s = s * q - s := by ring
    linarith

/-- General exactness of the derived loop count, provided the stride is
consistent with the direction, the oriented span is nonnegative
(for the relational comparisons), and a `!=` loop actually terminates. -/
theorem cilkForLoopCount_exact (op : CilkCmpOp) (first limit stride : Int)
    (hcons : cilkForStrideConsistent op stride = true)
    (hspan : op ≠ CilkCmpOp.ne →
      0 ≤ (if condDirection op < 0 then first - limit else limit - first))
    (hterm : op = CilkCmpOp.ne → ∃ m : Nat, limit = first + (m : Int) * stride) :
    ∃ n : Nat, cilkForLoopCount op first limit stride = (n : Int) ∧
      isExactTripCount op first limit stride n := by
  cases op with
  | lt =>
    have hstr : 0 < stride := by
      simp only [cilkForStrideConsistent, condDirection, Bool.and_eq_true,
        Bool.not_eq_true', Bool.and_eq_false_iff, decide_eq_false_iff_not,
        beq_eq_false_iff_ne, ne_eq, decide_eq_true_eq] at hcons
      omega
    have hsp : 0 ≤ limit - first := by simpa [condDirection] using hspan (by decide)
    obtain ⟨hpos, hge, hlt⟩ := tdiv_open_spec (limit - first) stride hstr hsp
    refine ⟨((limit - first + (stride - 1)).tdiv stride).toNat, ?_, ?_, ?_⟩
    · rw [cilkForLoopCount_lt, Int.toNat_of_nonneg hpos]
    · intro k hk
      have hk' : (k : Int) < (limit - first + (stride - 1)).tdiv stride := by
        omega
      have := hlt k (by positivity) hk'
      simp only [cilkCmpHolds, decide_eq_true_eq]
      linarith
    · have hnat : (((limit - first + (stride - 1)).tdiv stride).toNat : Int)
          = (limit - first + (stride - 1)).tdiv stride := Int.toNat_of_nonneg hpos
      simp only [cilkCmpHolds, decide_eq_false_iff_not, not_lt, hnat]
      linarith
  | le =>
    have hstr : 0 < stride := by
      simp only [cilkForStrideConsistent, condDirection, Bool.and_eq_true,
        Bool.not_eq_true', Bool.and_eq_false_iff, decide_eq_false_iff_not,
        beq_eq_false_iff_ne, ne_eq, decide_eq_true_eq] at hcons
      omega
    have hsp : 0 ≤ limit - first := by simpa [condDirection] using hspan (by decide)
    obtain ⟨hpos, hge, hlt⟩ := tdiv_closed_spec (limit - first) stride hstr hsp
    refine ⟨((limit - first + (stride - 1) + 1).tdiv stride).toNat, ?_, ?_, ?_⟩
    · rw [cilkForLoopCount_le, Int.toNat_of_nonneg hpos]
    · intro k hk
      have hk' : (k : Int) < (limit - first + (stride - 1) + 1).tdiv stride := by
        omega
      have := hlt k (by positivity) hk'
      simp only [cilkCmpHolds, decide_eq_true_eq]
      linarith
    · have hnat : (((limit - first + (stride - 1) + 1).tdiv stride).toNat : Int)
          = (limit - first + (stride - 1) + 1).tdiv stride := Int.toNat_of_nonneg hpos
      simp only [cilkCmpHolds, decide_eq_false_iff_not, not_le, hnat]
      linarith
  | gt =>
    have hstr : stride < 0 := by
      simp only [cilkForStrideConsistent, condDirection, Bool.and_eq_true,
        Bool.not_eq_true', Bool.and_eq_false_iff, decide_eq_false_iff_not,
        beq_eq_false_iff_ne, ne_eq, decide_eq_true_eq] at hcons
      omega
    have hsp : 0 ≤ first - limit := by simpa [condDirection] using hspan (by decide)
    obtain ⟨hpos, hge, hlt⟩ := tdiv_open_spec (first - limit) (-stride) (by omega) hsp
    refine ⟨((first - limit + (-stride - 1)).tdiv (-stride)).toNat, ?_, ?_, ?_⟩
    · rw [cilkForLoopCount_gt, Int.toNat_of_nonneg hpos]
    · intro k hk
      have hk' : (k : Int) < (first - limit + (-stride - 1)).tdiv (-stride) := by
        omega
      have := hlt k (by positivity) hk'
      simp only [cilkCmpHolds, decide_eq_true_eq]
      nlinarith
    · have hnat : (((first - limit + (-stride - 1)).tdiv (-stride)).toNat : Int)
          = (first - limit + (-stride - 1)).tdiv (-stride) := Int.toNat_of_nonneg hpos
      simp only [cilkCmpHolds, decide_eq_false_iff_not, not_lt, hnat]
      nlinarith
  | ge =>
    have hstr : stride < 0 := by
      simp only [cilkForStrideConsistent, condDirection, Bool.and_eq_true,
        Bool.not_eq_true', Bool.and_eq_false_iff, decide_eq_false_iff_not,
        beq_eq_false_iff_ne, ne_eq, decide_eq_true_eq] at hcons
      omega
    have hsp : 0 ≤ first - limit := by simpa [condDirection] using hspan (by decide)
    obtain ⟨hpos, hge, hlt⟩ := tdiv_closed_spec (first - limit) (-stride) (by omega) hsp
    refine ⟨((first - limit + (-stride - 1) + 1).tdiv (-stride)).toNat, ?_, ?_, ?_⟩
    · rw [cilkForLoopCount_ge, Int.toNat_of_nonneg hpos]
    · intro k hk
      have hk' : (k : Int) < (first - limit + (-stride - 1) + 1).tdiv (-stride) := by
        omega
      have := hlt k (by positivity) hk'
      simp only [cilkCmpHolds, decide_eq_true_eq]
      nlinarith
    · have hnat : (((first - limit + (-stride - 1) + 1).tdiv (-stride)).toNat : Int)
          = (first - limit + (-stride - 1) + 1).tdiv (-stride) := Int.toNat_of_nonneg hpos
      simp only [cilkCmpHolds, decide_eq_false_iff_not, not_le, hnat]
      nlinarith
  | ne =>
    obtain ⟨m, hm⟩ := hterm rfl
    have hsne : stride ≠ 0 := by
      simp only [cilkForStrideConsistent, Bool.and_eq_true,
        Bool.not_eq_true', beq_eq_false_iff_ne, ne_eq] at hcons
      exact hcons.1.1
    refine ⟨m, ?_, ?_, ?_⟩
    · rw [cilkForLoopCount_ne_eq]
      rcases lt_or_le stride 0 with hneg | hge0
      · rw [if_pos hneg, if_pos hneg]
        have h1 : -(limit - first) = (m : Int) * (-stride) := by rw [hm]; ring
        rw [h1, Int.tdiv_eq_ediv (mul_nonneg (Int.natCast_nonneg m) (by omega))
          (by omega), Int.mul_ediv_cancel _ (by omega)]
      · have hpos' : 0 < stride := lt_of_le_of_ne hge0 (Ne.symm hsne)
        rw [if_neg (not_lt.mpr hge0), if_neg (not_lt.mpr hge0)]
        have h1 : limit - first = (m : Int) * stride := by linarith
        rw [h1, Int.tdiv_eq_ediv (mul_nonneg (Int.natCast_nonneg m) (by omega))
          (by omega), Int.mul_ediv_cancel _ hsne]
    · intro k hk
      simp only [cilkCmpHolds, decide_eq_true_eq, ne_eq]
      intro hctr
      have : (k : Int) * stride = (m : Int) * stride := by omega
      have : (k : Int) = (m : Int) := mul_right_cancel₀ hsne this
      omega
    · simp only [cilkCmpHolds, decide_eq_false_iff_not, ne_eq, not_not]
      omega

/-- C1, counterexample: for the claim's third example (control variable 0,
limit 10 replaced by 9, operator `<=`, stride 3) the loop-count expression
built by `ActOnCilkForStmt` evaluates to 4 — which is the exact iteration
count, the loop body running at control values 0, 3, 6 and 9 — and not to 3
as the claim states. -/
theorem cilkFor_trip_count_claim_counterexample :
    cilkForStrideConsistent .le 3 = true ∧
    cilkForLoopCount .le 0 9 3 = 4 ∧
    isExactTripCount .le 0 9 3 4 ∧
    cilkForLoopCount .le 0 9 3 ≠ 3 := by
  refine ⟨by decide, by decide, ⟨?_, by decide⟩, by decide⟩
  decide

/-- C1 (amended): for every parallel-for loop accepted by the analyzer whose
increment stride is a compile-time constant, non-zero and sign-consistent
with the comparison direction, and whose oriented span is nonnegative (for
`!=`, whose control variable reaches the limit after a whole number of
steps), the loop-count expression built by `ActOnCilkForStmt` equals the
mathematically exact iteration count; in particular control variable 0,
limit 10, operator `<`, stride 1 yields 10; control variable 10, limit 0,
operator `>`, decrementing stride 1 yields 10; and control variable 0,
limit 9, operator `<=`, stride 3 yields 4. -/
theorem cilkFor_trip_count_correct :
    (∀ (op : CilkCmpOp) (first limit stride : Int),
      cilkForStrideConsistent op stride = true →
      (op ≠ CilkCmpOp.ne →
        0 ≤ (if condDirection op < 0 then first - limit else limit - first)) →
      (op = CilkCmpOp.ne → ∃ m : Nat, limit = first + (m : Int) * stride) →
      ∃ n : Nat, cilkForLoopCount op first limit stride = (n : Int) ∧
        isExactTripCount op first limit stride n) ∧
    cilkForLoopCount .lt 0 10 1 = 10 ∧
    cilkForLoopCount .gt 10 0 (-1) = 10 ∧
    cilkForLoopCount .le 0 9 3 = 4 :=
  ⟨cilkForLoopCount_exact, by decide, by decide, by decide⟩

/-- C1, witness: the general exactness statement applied at the concrete
loop `for (v = 0; v < 10; v += 1)`. -/
theorem cilkFor_trip_count_correct_witness :
    ∃ n : Nat, cilkForLoopCount .lt 0 10 1 = (n : Int) ∧
      isExactTripCount .lt 0 10 1 n :=
  cilkFor_trip_count_correct.1 .lt 0 10 1 (by decide) (by decide)
    (fun h => nomatch h)

/-- `caseLE` is the negation of the flipped strict comparison, matching the
`std::stable_sort` postcondition. -/
theorem caseLE_iff_not_cmp (a b : Int × CaseLabel) :
    caseLE a b ↔ ¬ cmpCaseVals b a := by
  unfold caseLE cmpCaseVals
  constructor
  · rintro (h | ⟨h, h'⟩) <;> rintro (h2 | ⟨h2, h2'⟩) <;> omega
  · intro h
    rcases lt_trichotomy a.1 b.1 with h1 | h1 | h1
    · exact Or.inl h1
    · refine Or.inr ⟨h1, ?_⟩
      by_contra h2
      exact h (Or.inr ⟨h1.symm, by omega⟩)
    · exact absurd (Or.inl h1) h

/-! ## Theorems for claims C6, C8, C9, C10 -/

theorem actOnBreakStmt_plain (l : List BreakScope) :
    actOnBreakStmt (.plainBlock :: l) = actOnBreakStmt l := rfl

/-- C6: a break whose nearest enclosing break target is a parallel-for
(_Cilk_for) loop's own body — only transparent block scopes in between,
regardless of any ordinary loop further out — is rejected with the hard
error err_cilk_for_cannot_break and the invalid sentinel; and a break with
no enclosing loop or switch at all in a non-parallel context is likewise a
hard error (err_break_not_in_loop_or_switch). -/
theorem break_in_cilkFor_rejected :
    (∀ inner outer : List BreakScope,
      (∀ s ∈ inner, s = BreakScope.plainBlock) →
      actOnBreakStmt (inner ++ BreakScope.cilkForBody :: outer)
        = .error .cilkForCannotBreak) ∧
    (∀ scopes : List BreakScope,
      (∀ s ∈ scopes, s = BreakScope.plainBlock ∨ s = BreakScope.funcBoundary) →
      actOnBreakStmt scopes = .error .breakNotInLoopOrSwitch) := by
  constructor
  · intro inner outer h
    induction inner with
    | nil => rfl
    | cons s rest ih =>
      have hs := h s (List.mem_cons_self s rest)
      subst hs
      rw [List.cons_append, actOnBreakStmt_plain]
      exact ih fun x hx => h x (List.mem_cons_of_mem _ hx)
  · intro scopes h
    induction scopes with
    | nil => rfl
    | cons s rest ih =>
      rcases h s (List.mem_cons_self s rest) with hs | hs
      · subst hs
        rw [actOnBreakStmt_plain]
        exact ih fun x hx => h x (List.mem_cons_of_mem _ hx)
      · subst hs
        rfl

/-- C6, witness: a break directly inside a `_Cilk_for` body nested in an
ordinary outer loop, and a break inside a bare function body. -/
theorem break_in_cilkFor_rejected_witness :
    actOnBreakStmt [BreakScope.plainBlock, BreakScope.cilkForBody,
        BreakScope.ordinaryLoop, BreakScope.funcBoundary]
      = .error .cilkForCannotBreak ∧
    actOnBreakStmt [BreakScope.plainBlock, BreakScope.funcBoundary]
      = .error .breakNotInLoopOrSwitch :=
  ⟨break_in_cilkFor_rejected.1 [.plainBlock] [.ordinaryLoop, .funcBoundary]
      (by decide),
    break_in_cilkFor_rejected.2 [.plainBlock, .funcBoundary] (by decide)⟩

/-- C8: for a range-based for loop over a class-type range where member
lookup finds exactly one of `begin` and `end`, the analyzer issues a hard
error (FRS_DiagnosticIssued) whose diagnostic identifies the missing member
function, and the outcome is independent of the argument-dependent-lookup
resolver — no ADL fallback happens for that range. -/
theorem forRange_member_mismatch_hard_error (rt : RangeTypeInfo)
    (m a m' a' : BEFKind → ForRangeStatus)
    (hclass : rt.isClass = true)
    (hdiff : rt.hasBeginMember ≠ rt.hasEndMember) :
    buildNonArrayForRange rt m a
      = (.diagnosticIssued,
          [.memberBeginEndMismatch
            (if rt.hasBeginMember then .befBegin else .befEnd)]) ∧
    (∀ d ∈ (buildNonArrayForRange rt m a).2,
      mismatchMissing d
        = (if rt.hasBeginMember then BEFKind.befEnd else BEFKind.befBegin)) ∧
    buildNonArrayForRange rt m a = buildNonArrayForRange rt m' a' := by
  have hcond : rt.isClass = true ∧ rt.hasBeginMember ≠ rt.hasEndMember :=
    ⟨hclass, hdiff⟩
  refine ⟨?_, ?_, ?_⟩
  · unfold buildNonArrayForRange
    rw [if_pos hcond]
  · intro d hd
    unfold buildNonArrayForRange at hd
    rw [if_pos hcond] at hd
    simp only [List.mem_singleton] at hd
    subst hd
    cases hb : rt.hasBeginMember <;> simp [mismatchMissing]
  · unfold buildNonArrayForRange
    rw [if_pos hcond, if_pos hcond]

/-- C8, witness: a range type with only a `begin` member; the diagnostic
names `end` as missing and two different ADL resolvers give the same
outcome. -/
theorem forRange_member_mismatch_hard_error_witness :
    buildNonArrayForRange ⟨true, true, false⟩
        (fun _ => .success) (fun _ => .success)
      = (.diagnosticIssued,
          [.memberBeginEndMismatch (if true then .befBegin else .befEnd)]) ∧
    (∀ d ∈ (buildNonArrayForRange ⟨true, true, false⟩
        (fun _ => .success) (fun _ => .success)).2,
      mismatchMissing d = (if true then BEFKind.befEnd else BEFKind.befBegin)) ∧
    buildNonArrayForRange ⟨true, true, false⟩
        (fun _ => .success) (fun _ => .success)
      = buildNonArrayForRange ⟨true, true, false⟩
          (fun _ => .noViableFunction) (fun _ => .noViableFunction) :=
  forRange_member_mismatch_hard_error ⟨true, true, false⟩
    (fun _ => .success) (fun _ => .success)
    (fun _ => .noViableFunction) (fun _ => .noViableFunction)
    rfl (by decide)

theorem foldl_addSwitchCase (ls : List SwitchLabel) (sw : SwitchNode)
    (rest : List SwitchNode) :
    ls.foldl addSwitchCase ⟨sw :: rest⟩
      = ⟨{ sw with labels := ls.reverse ++ sw.labels } :: rest⟩ := by
  induction ls generalizing sw with
  | nil => simp
  | cons l ls ih =>
    simp only [List.foldl_cons, addSwitchCase]
    rw [ih]
    simp

/-- C9: `ActOnFinishSwitchStmt` pops exactly the switch on top of the stack
— the one the matching `ActOnStartOfSwitchStmt` pushed — and attaches the
body to it, before (hence independently of) case-list validation: the stack
shrinks by that one entry and the node carries the body even when the
function returns the invalid sentinel. -/
theorem switch_stack_balanced :
    (∀ (st : FuncScopeState) (sw : SwitchNode) (rest : List SwitchNode)
        (body : Nat),
      st.switchStack = sw :: rest →
      (actOnFinishSwitchStmt st body).state.switchStack = rest ∧
      (actOnFinishSwitchStmt st body).node
        = some { sw with
            body := some body
            allEnumCasesCovered :=
              (finishSwitchAnalysis sw.cond sw.labels).allEnumCovered } ∧
      (∀ n, (actOnFinishSwitchStmt st body).node = some n →
        n.body = some body ∧ n.labels = sw.labels) ∧
      ((actOnFinishSwitchStmt st body).result = none ∨
        (actOnFinishSwitchStmt st body).result
          = (actOnFinishSwitchStmt st body).node)) ∧
    (∀ (st : FuncScopeState) (cond : SwitchCond) (ls : List SwitchLabel)
        (body : Nat),
      (actOnFinishSwitchStmt
          (ls.foldl addSwitchCase (actOnStartOfSwitchStmt st cond).1)
          body).state.switchStack = st.switchStack ∧
      ∃ n, (actOnFinishSwitchStmt
          (ls.foldl addSwitchCase (actOnStartOfSwitchStmt st cond).1)
          body).node = some n ∧
        n.cond = cond ∧ n.labels = ls.reverse ∧ n.body = some body) := by
  constructor
  · intro st sw rest body hst
    obtain ⟨stack⟩ := st
    simp only at hst
    subst hst
    refine ⟨rfl, rfl, ?_, ?_⟩
    · intro n hn
      simp only [actOnFinishSwitchStmt, Option.some.injEq] at hn
      subst hn
      exact ⟨rfl, rfl⟩
    · simp only [actOnFinishSwitchStmt]
      by_cases h : (finishSwitchAnalysis sw.cond sw.labels).erroneous
      · left
        simp [h]
      · right
        simp [h]
  · intro st cond ls body
    have h := foldl_addSwitchCase ls ⟨cond, [], none, false⟩ st.switchStack
    simp only [actOnStartOfSwitchStmt]
    rw [h]
    refine ⟨rfl, ?_⟩
    refine ⟨_, rfl, rfl, by simp, rfl⟩

/-- C9, witness: a concrete one-switch stack, finished with body 7: the
stack returns to its previous (empty) content and the body is attached. -/
theorem switch_stack_balanced_witness :
    (actOnFinishSwitchStmt
        ⟨[⟨⟨8, true, none, none⟩, [], none, false⟩]⟩ 7).state.switchStack
      = [] ∧
    (actOnFinishSwitchStmt
        ⟨[⟨⟨8, true, none, none⟩, [], none, false⟩]⟩ 7).node
      = some ⟨⟨8, true, none, none⟩, [], some 7,
          (finishSwitchAnalysis ⟨8, true, none, none⟩ []).allEnumCovered⟩ ∧
    (∀ n, (actOnFinishSwitchStmt
        ⟨[⟨⟨8, true, none, none⟩, [], none, false⟩]⟩ 7).node = some n →
      n.body = some 7 ∧ n.labels = []) ∧
    ((actOnFinishSwitchStmt
        ⟨[⟨⟨8, true, none, none⟩, [], none, false⟩]⟩ 7).result = none ∨
      (actOnFinishSwitchStmt
        ⟨[⟨⟨8, true, none, none⟩, [], none, false⟩]⟩ 7).result
        = (actOnFinishSwitchStmt
            ⟨[⟨⟨8, true, none, none⟩, [], none, false⟩]⟩ 7).node) :=
  switch_stack_balanced.1 ⟨[⟨⟨8, true, none, none⟩, [], none, false⟩]⟩
    ⟨⟨8, true, none, none⟩, [], none, false⟩ [] 7 rfl

/-- C10: a case label with no open switch yields a diagnostic and the
invalid sentinel, whereas a default label with no open switch yields a
diagnostic but returns its sub-statement as a valid (non-invalid) result. -/
theorem case_default_outside_switch_asymmetry (c : CaseLabel)
    (loc sub : Nat) :
    actOnCaseStmt ⟨[]⟩ c = (⟨[]⟩, [.caseNotInSwitch c.loc], .invalid) ∧
    actOnDefaultStmt ⟨[]⟩ loc sub
      = (⟨[]⟩, [.defaultNotInSwitch loc], .ownedSubStmt sub) ∧
    (actOnDefaultStmt ⟨[]⟩ loc sub).2.2 ≠ DefaultStmtResult.invalid := by
  refine ⟨rfl, rfl, ?_⟩
  simp [actOnDefaultStmt, addSwitchCase]


theorem foldl_scanLabel_caseVals (w : Nat) (sgn : Bool) (ls : List SwitchLabel)
    (st : LabelScan) :
    (ls.foldl (scanLabel w sgn) st).caseVals
      = st.caseVals ++ ls.filterMap (singletonEntry w sgn) := by
  induction ls generalizing st with
  | nil => simp
  | cons l ls ih =>
    rw [List.foldl_cons, ih]
    cases l with
    | defaultLbl loc =>
      cases h : st.theDefault <;>
        simp [scanLabel, h, singletonEntry, List.filterMap_cons]
    | caseLbl c =>
      cases h : c.hiVal <;>
        simp [scanLabel, h, singletonEntry, List.filterMap_cons]

theorem scanLabels_caseVals (w : Nat) (sgn : Bool) (ls : List SwitchLabel) :
    (scanLabels w sgn ls).caseVals = ls.filterMap (singletonEntry w sgn) := by
  simpa [labelScanInit] using foldl_scanLabel_caseVals w sgn ls labelScanInit

theorem foldl_scanLabel_caseRanges (w : Nat) (sgn : Bool) (ls : List SwitchLabel)
    (st : LabelScan) :
    (ls.foldl (scanLabel w sgn) st).caseRanges
      = st.caseRanges ++ ls.filterMap (rangeEntry w sgn) := by
  induction ls generalizing st with
  | nil => simp
  | cons l ls ih =>
    rw [List.foldl_cons, ih]
    cases l with
    | defaultLbl loc =>
      cases h : st.theDefault <;>
        simp [scanLabel, h, rangeEntry, List.filterMap_cons]
    | caseLbl c =>
      cases h : c.hiVal <;>
        simp [scanLabel, h, rangeEntry, List.filterMap_cons]

theorem scanLabels_caseRanges (w : Nat) (sgn : Bool) (ls : List SwitchLabel) :
    (scanLabels w sgn ls).caseRanges = ls.filterMap (rangeEntry w sgn) := by
  simpa [labelScanInit] using foldl_scanLabel_caseRanges w sgn ls labelScanInit

theorem foldl_scanLabel_erroneous (w : Nat) (sgn : Bool) (ls : List SwitchLabel)
    (st : LabelScan) :
    (ls.foldl (scanLabel w sgn) st).erroneous
      = (st.erroneous ||
          decide (2 ≤ st.theDefault.isSome.toNat + ls.countP isDefaultLbl)) := by
  induction ls generalizing st with
  | nil =>
    simp only [List.foldl_nil, List.countP_nil, Nat.add_zero]
    cases h : st.theDefault.isSome <;> simp [h]
  | cons l ls ih =>
    rw [List.foldl_cons, ih]
    cases l with
    | defaultLbl loc =>
      cases h : st.theDefault with
      | none =>
        simp only [scanLabel, h, Option.isSome_some, Option.isSome_none,
          Bool.toNat_true, Bool.toNat_false, List.countP_cons, isDefaultLbl,
          eq_self_iff_true, if_true]
        rw [decide_eq_decide.mpr (by omega :
          (2 ≤ 1 + ls.countP isDefaultLbl) ↔
            (2 ≤ 0 + (ls.countP isDefaultLbl + 1)))]
      | some prev =>
        simp only [scanLabel, h, Option.isSome_some, Bool.toNat_true,
          List.countP_cons, isDefaultLbl, eq_self_iff_true, if_true]
        rw [decide_eq_true (by omega :
          2 ≤ 1 + (ls.countP isDefaultLbl + 1))]
        simp
    | caseLbl c =>
      cases h : c.hiVal <;>
        simp [scanLabel, h, List.countP_cons, isDefaultLbl]

theorem scanLabels_erroneous (w : Nat) (sgn : Bool) (ls : List SwitchLabel) :
    (scanLabels w sgn ls).erroneous = decide (2 ≤ ls.countP isDefaultLbl) := by
  simpa [labelScanInit] using foldl_scanLabel_erroneous w sgn ls labelScanInit

theorem foldl_scanLabel_theDefault (w : Nat) (sgn : Bool) (ls : List SwitchLabel)
    (st : LabelScan) :
    (ls.foldl (scanLabel w sgn) st).theDefault.isSome
      = (st.theDefault.isSome || ls.any isDefaultLbl) := by
  induction ls generalizing st with
  | nil => simp
  | cons l ls ih =>
    rw [List.foldl_cons, ih]
    cases l with
    | defaultLbl loc =>
      cases h : st.theDefault <;> simp [scanLabel, h, isDefaultLbl]
    | caseLbl c =>
      cases h : c.hiVal <;> simp [scanLabel, h, isDefaultLbl]

theorem scanLabels_theDefault (w : Nat) (sgn : Bool) (ls : List SwitchLabel) :
    (scanLabels w sgn ls).theDefault.isSome = ls.any isDefaultLbl := by
  simpa [labelScanInit] using foldl_scanLabel_theDefault w sgn ls labelScanInit

theorem findDupDiags_sound :
    ∀ (l : List (Int × CaseLabel)) (d : SwitchDiag), d ∈ findDupDiags l →
      ∃ a b, List.IsInfix [a, b] l ∧ a.1 = b.1 ∧ d = dupDiagFor a b
  | [], _, hd => by cases hd
  | [_], _, hd => by cases hd
  | a :: b :: rest, d, hd => by
    simp only [findDupDiags, List.mem_append] at hd
    rcases hd with hd | hd
    · by_cases hv : a.1 = b.1
      · rw [if_pos hv] at hd
        simp only [List.mem_singleton] at hd
        exact ⟨a, b, ⟨[], rest, by simp⟩, hv, hd⟩
      · rw [if_neg hv] at hd
        cases hd
    · obtain ⟨x, y, ⟨s, t, hst⟩, hxy, hdd⟩ := findDupDiags_sound (b :: rest) d hd
      exact ⟨x, y, ⟨a :: s, t, by simp [← hst]⟩, hxy, hdd⟩

theorem findDupDiags_eq_nil_iff :
    ∀ (l : List (Int × CaseLabel)),
      l.Pairwise (fun a b => a.1 ≤ b.1) →
      (findDupDiags l = [] ↔ l.Pairwise (fun a b => a.1 ≠ b.1))
  | [], _ => by simp [findDupDiags]
  | [a], _ => by simp [findDupDiags]
  | a :: b :: rest, hs => by
    rw [List.pairwise_cons] at hs
    obtain ⟨hfirst, hrest⟩ := hs
    have hab : a.1 ≤ b.1 := hfirst b (List.mem_cons_self b rest)
    have hbrest : ∀ c ∈ rest, b.1 ≤ c.1 :=
      (List.pairwise_cons.mp hrest).1
    have ih := findDupDiags_eq_nil_iff (b :: rest) hrest
    have hunf : findDupDiags (a :: b :: rest)
        = (if a.1 = b.1 then [dupDiagFor a b] else [])
            ++ findDupDiags (b :: rest) := rfl
    rw [hunf]
    by_cases hv : a.1 = b.1
    · rw [if_pos hv]
      simp only [List.singleton_append]
      constructor
      · intro h
        exact absurd h (List.cons_ne_nil _ _)
      · intro h
        rw [List.pairwise_cons] at h
        exact absurd hv (h.1 b (List.mem_cons_self b rest))
    · rw [if_neg hv, List.nil_append, ih]
      constructor
      · intro h
        rw [List.pairwise_cons]
        refine ⟨?_, h⟩
        intro c hc
        rcases List.mem_cons.mp hc with rfl | hc
        · exact hv
        · have h1 := hbrest c hc
          intro heq
          omega
      · intro h
        rw [List.pairwise_cons] at h
        exact h.2

theorem finishSwitch_erroneous_eq (cond : SwitchCond) (ls : List SwitchLabel) :
    (finishSwitchAnalysis cond ls).erroneous
      = ((scanLabels cond.width cond.signd ls).erroneous
          || !(findDupDiags (switchSortedVals cond ls)).isEmpty
          || (overlapScan (switchSortedVals cond ls)
                (switchKeptRanges cond ls) none).2) := rfl

/-- C2: the singleton case values, converted to the pre-promotion width and
signedness, are sorted by (value, then source order); whenever two values
are equal a duplicate-case hard error is emitted, located at the later
occurrence with its note at the earlier occurrence, naming the operands
when they are simple named references and otherwise printing the numeric
value; and such duplicates make the whole case list erroneous. -/
theorem switch_dup_case_detection (cond : SwitchCond) (ls : List SwitchLabel)
    (hnodup : (((scanLabels cond.width cond.signd ls).caseVals.map
        (fun p => p.2.loc))).Nodup) :
    List.Sorted caseLE (switchSortedVals cond ls) ∧
    (switchSortedVals cond ls).Perm
      ((ls.filterMap (singletonEntry cond.width cond.signd))) ∧
    (∀ d ∈ findDupDiags (switchSortedVals cond ls),
      ∃ a b, List.IsInfix [a, b] (switchSortedVals cond ls) ∧
        a.1 = b.1 ∧ a.2.loc < b.2.loc ∧ d = dupDiagFor a b ∧
        (∀ n, a.2.lhsName = some n → diagMentionsName n d = true) ∧
        (∀ n, b.2.lhsName = some n → diagMentionsName n d = true) ∧
        (a.2.lhsName = none → b.2.lhsName = none →
          diagPrintsVal a.1 d = true)) ∧
    (findDupDiags (switchSortedVals cond ls) = []
      ↔ ((switchSortedVals cond ls).map Prod.fst).Nodup) ∧
    (¬ ((switchSortedVals cond ls).map Prod.fst).Nodup →
      (finishSwitchAnalysis cond ls).erroneous = true) := by
  set sv := (scanLabels cond.width cond.signd ls).caseVals with hsv
  have hsorted : List.Sorted caseLE (switchSortedVals cond ls) :=
    List.sorted_insertionSort caseLE sv
  have hperm : (switchSortedVals cond ls).Perm sv :=
    List.perm_insertionSort caseLE sv
  have hnodup' : ((switchSortedVals cond ls).map (fun p => p.2.loc)).Nodup :=
    ((hperm.map (fun p => p.2.loc)).nodup_iff).mpr hnodup
  have hle : (switchSortedVals cond ls).Pairwise (fun a b => a.1 ≤ b.1) := by
    refine hsorted.imp ?_
    intro a b hab
    rcases hab with h | ⟨h, _⟩
    · exact le_of_lt h
    · exact le_of_eq h
  refine ⟨hsorted, ?_, ?_, ?_, ?_⟩
  · rw [hsv, scanLabels_caseVals] at hperm
    exact hperm
  · intro d hd
    obtain ⟨a, b, hinf, hv, hdd⟩ :=
      findDupDiags_sound (switchSortedVals cond ls) d hd
    have hsub : List.Sublist [a, b] (switchSortedVals cond ls) :=
      hinf.sublist
    have hpl : List.Pairwise caseLE [a, b] := hsorted.sublist hsub
    have hcle : caseLE a b := (List.pairwise_cons.mp hpl).1 b (by simp)
    have hlocsub : List.Sublist [a.2.loc, b.2.loc]
        ((switchSortedVals cond ls).map (fun p => p.2.loc)) := by
      have := hsub.map (fun p => p.2.loc)
      simpa using this
    have hlocs : a.2.loc ≠ b.2.loc := by
      have := hnodup'.sublist hlocsub
      simp only [List.nodup_cons, List.mem_singleton] at this
      exact this.1
    have hlt : a.2.loc < b.2.loc := by
      rcases hcle with h | ⟨_, h⟩
      · omega
      · omega
    refine ⟨a, b, hinf, hv, hlt, hdd, ?_, ?_, ?_⟩
    · intro n hn
      subst hdd
      unfold dupDiagFor
      by_cases he : a.2.lhsName = b.2.lhsName
      · rw [if_pos he]
        simp [diagMentionsName, hn]
      · rw [if_neg he]
        simp [diagMentionsName, hn]
    · intro n hn
      subst hdd
      unfold dupDiagFor
      by_cases he : a.2.lhsName = b.2.lhsName
      · rw [if_pos he, he]
        simp [diagMentionsName, hn]
      · rw [if_neg he]
        simp [diagMentionsName, hn]
    · intro ha hb
      subst hdd
      unfold dupDiagFor
      rw [if_pos (ha.trans hb.symm), ha]
      simp [diagPrintsVal]
  · rw [findDupDiags_eq_nil_iff _ hle]
    constructor
    · intro h
      exact List.Pairwise.map Prod.fst (fun a b hab => hab) h
    · intro h
      exact List.pairwise_map.mp h
  · intro h
    rw [finishSwitch_erroneous_eq]
    have hne : findDupDiags (switchSortedVals cond ls) ≠ [] := by
      intro hnil
      exact h (List.Pairwise.map Prod.fst (fun a b hab => hab)
        ((findDupDiags_eq_nil_iff _ hle).mp hnil))
    rcases hfd : findDupDiags (switchSortedVals cond ls) with _ | ⟨d, ds⟩
    · exact absurd hfd hne
    · simp [hfd]

/-- C2, witness: the concrete case list `case 1: case 1:` at source
locations 10 and 20. -/
theorem switch_dup_case_detection_witness :
    List.Sorted caseLE (switchSortedVals plainCond dupLabels) ∧
    (switchSortedVals plainCond dupLabels).Perm
      ((dupLabels.filterMap (singletonEntry plainCond.width plainCond.signd))) ∧
    (∀ d ∈ findDupDiags (switchSortedVals plainCond dupLabels),
      ∃ a b, List.IsInfix [a, b] (switchSortedVals plainCond dupLabels) ∧
        a.1 = b.1 ∧ a.2.loc < b.2.loc ∧ d = dupDiagFor a b ∧
        (∀ n, a.2.lhsName = some n → diagMentionsName n d = true) ∧
        (∀ n, b.2.lhsName = some n → diagMentionsName n d = true) ∧
        (a.2.lhsName = none → b.2.lhsName = none →
          diagPrintsVal a.1 d = true)) ∧
    (findDupDiags (switchSortedVals plainCond dupLabels) = []
      ↔ ((switchSortedVals plainCond dupLabels).map Prod.fst).Nodup) ∧
    (¬ ((switchSortedVals plainCond dupLabels).map Prod.fst).Nodup →
      (finishSwitchAnalysis plainCond dupLabels).erroneous = true) :=
  switch_dup_case_detection plainCond dupLabels (by decide)

theorem sortedVals_pairwise_le (cond : SwitchCond) (ls : List SwitchLabel) :
    (switchSortedVals cond ls).Pairwise (fun a b => a.1 ≤ b.1) := by
  refine (List.sorted_insertionSort caseLE _).imp ?_
  intro a b hab
  rcases hab with h | ⟨h, _⟩
  · exact le_of_lt h
  · exact le_of_eq h

theorem erroneous_of_dup (cond : SwitchCond) (ls : List SwitchLabel)
    (h : ¬ ((switchSortedVals cond ls).map Prod.fst).Nodup) :
    (finishSwitchAnalysis cond ls).erroneous = true := by
  rw [finishSwitch_erroneous_eq]
  have hle := sortedVals_pairwise_le cond ls
  have hne : findDupDiags (switchSortedVals cond ls) ≠ [] := fun hnil =>
    h (List.Pairwise.map Prod.fst (fun a b hab => hab)
      ((findDupDiags_eq_nil_iff _ hle).mp hnil))
  rcases hfd : findDupDiags (switchSortedVals cond ls) with _ | ⟨d, ds⟩
  · exact absurd hfd hne
  · simp [hfd]

theorem processRanges_eq (w : Nat) (sgn : Bool) :
    ∀ rl : List (Int × CaseLabel),
      processRanges w sgn rl
        = ((rl.filter (isDegenerate w sgn)).map
            (fun p => SwitchDiag.emptyRange p.2.loc),
          (rl.filter (fun p => !isDegenerate w sgn p)).map
            (fun p => (p.1, toCondWidth w sgn (p.2.hiVal.getD 0), p.2)))
  | [] => rfl
  | (lo, c) :: rest => by
    have ih := processRanges_eq w sgn rest
    show (let hi := toCondWidth w sgn (c.hiVal.getD 0)
          let pr := processRanges w sgn rest
          if hi < lo then (SwitchDiag.emptyRange c.loc :: pr.1, pr.2)
          else (pr.1, (lo, hi, c) :: pr.2)) = _
    rw [ih]
    by_cases hd : toCondWidth w sgn (c.hiVal.getD 0) < lo
    · rw [if_pos hd]
      have hdg : isDegenerate w sgn (lo, c) = true := decide_eq_true hd
      simp [List.filter_cons, hdg]
    · rw [if_neg hd]
      have hdg : isDegenerate w sgn (lo, c) = false := by
        simpa [isDegenerate] using hd
      simp [List.filter_cons, hdg]

theorem switchKeptRanges_sorted (cond : SwitchCond) (ls : List SwitchLabel) :
    (switchKeptRanges cond ls).Pairwise (fun r s => r.1 ≤ s.1) := by
  unfold switchKeptRanges
  rw [processRanges_eq]
  refine List.Pairwise.map _ (fun a b hab => hab) ?_
  refine List.Pairwise.filter _ ?_
  refine (List.sorted_insertionSort caseLE _).imp ?_
  intro a b hab
  rcases hab with h | ⟨h, _⟩
  · exact le_of_lt h
  · exact le_of_eq h

theorem getLast_takeWhile_ge (hi : Int) :
    ∀ (vals : List (Int × CaseLabel)) (p : Int × CaseLabel),
      p ∈ vals → vals.Pairwise (fun x y => x.1 ≤ y.1) → p.1 ≤ hi →
      ∃ q, (vals.takeWhile (fun x => decide (x.1 ≤ hi))).getLast? = some q ∧
        p.1 ≤ q.1
  | [], p, hmem, _, _ => absurd hmem (List.not_mem_nil p)
  | v :: vs, p, hmem, hsorted, hhi => by
    rw [List.pairwise_cons] at hsorted
    have hvp : v.1 ≤ p.1 := by
      rcases List.mem_cons.mp hmem with rfl | hp
      · exact le_refl _
      · exact hsorted.1 p hp
    have hv : decide (v.1 ≤ hi) = true :=
      decide_eq_true (le_trans hvp hhi)
    have htw : (v :: vs).takeWhile (fun x => decide (x.1 ≤ hi))
        = v :: vs.takeWhile (fun x => decide (x.1 ≤ hi)) := by
      rw [List.takeWhile_cons, hv]
      simp
    rcases List.mem_cons.mp hmem with rfl | hp
    · rw [htw]
      cases h2 : vs.takeWhile (fun x => decide (x.1 ≤ hi)) with
      | nil => exact ⟨p, by simp, le_refl _⟩
      | cons w ws =>
        have hne : w :: ws ≠ [] := List.cons_ne_nil _ _
        refine ⟨(w :: ws).getLast hne, ?_, ?_⟩
        · rw [List.getLast?_cons_cons, List.getLast?_eq_getLast _ hne]
        · have hqmem : (w :: ws).getLast hne ∈ w :: ws := List.getLast_mem hne
          have hmv : (w :: ws).getLast hne ∈ vs := by
            have hsub : (vs.takeWhile
                  (fun x : Int × CaseLabel => decide (x.1 ≤ hi))).Sublist vs :=
              (List.takeWhile_prefix _).sublist
            refine hsub.subset ?_
            rw [h2]
            exact hqmem
          exact hsorted.1 _ hmv
    · obtain ⟨q, hq, hpq⟩ := getLast_takeWhile_ge hi vs p hp hsorted.2 hhi
      rw [htw]
      cases h2 : vs.takeWhile (fun x => decide (x.1 ≤ hi)) with
      | nil => rw [h2] at hq; cases hq
      | cons w ws =>
        rw [h2] at hq
        exact ⟨q, by rw [List.getLast?_cons_cons, hq], hpq⟩

theorem overlapCheckOne_isSome_of_val (vals : List (Int × CaseLabel))
    (lo hi : Int) (prev : Option (Int × CaseLabel)) (p : Int × CaseLabel)
    (hmem : p ∈ vals) (hsorted : vals.Pairwise (fun x y => x.1 ≤ y.1))
    (hlo : lo ≤ p.1) (hhi : p.1 ≤ hi) :
    (overlapCheckOne vals lo hi prev).isSome = true := by
  obtain ⟨q, hq, hpq⟩ := getLast_takeWhile_ge hi vals p hmem hsorted hhi
  have hcond : lo ≤ q.1 := le_trans hlo hpq
  unfold overlapCheckOne
  rw [hq]
  rcases prev with _ | ⟨phi, pc⟩
  · simp [hcond, Option.orElse]
  · by_cases hc : lo ≤ phi <;> simp [hcond, hc, Option.orElse]

theorem overlapCheckOne_isSome_of_prev (vals : List (Int × CaseLabel))
    (lo hi phi : Int) (pc : CaseLabel) (h : lo ≤ phi) :
    (overlapCheckOne vals lo hi (some (phi, pc))).isSome = true := by
  unfold overlapCheckOne
  simp [h, Option.orElse]

theorem overlapScan_head_eq (vals : List (Int × CaseLabel))
    (lo hi : Int) (c : CaseLabel) (rest : List (Int × Int × CaseLabel))
    (prev : Option (Int × CaseLabel)) :
    (overlapScan vals ((lo, hi, c) :: rest) prev).2
      = ((overlapCheckOne vals lo hi prev).isSome
          || (overlapScan vals rest (some (hi, c))).2) := rfl

theorem overlapScan_err_of_val (vals : List (Int × CaseLabel)) :
    ∀ (ks : List (Int × Int × CaseLabel)) (prev : Option (Int × CaseLabel))
      (r : Int × Int × CaseLabel) (p : Int × CaseLabel),
      r ∈ ks → p ∈ vals → vals.Pairwise (fun x y => x.1 ≤ y.1) →
      r.1 ≤ p.1 → p.1 ≤ r.2.1 →
      (overlapScan vals ks prev).2 = true
  | [], _, _, _, hmem, _, _, _, _ => absurd hmem (List.not_mem_nil _)
  | k :: rest, prev, r, p, hmem, hp, hs, hlo, hhi => by
    obtain ⟨klo, khi, kc⟩ := k
    rw [overlapScan_head_eq]
    rcases List.mem_cons.mp hmem with rfl | hmem'
    · rw [overlapCheckOne_isSome_of_val vals klo khi prev p hp hs hlo hhi]
      simp
    · rw [overlapScan_err_of_val vals rest (some (khi, kc)) r p hmem' hp hs
        hlo hhi]
      simp

theorem overlapScan_err_of_sublist (vals : List (Int × CaseLabel)) :
    ∀ (ks : List (Int × Int × CaseLabel)) (prev : Option (Int × CaseLabel))
      (a b : Int × Int × CaseLabel),
      List.Sublist [a, b] ks → ks.Pairwise (fun r s => r.1 ≤ s.1) →
      b.1 ≤ a.2.1 →
      (overlapScan vals ks prev).2 = true
  | [], _, _, _, hsub, _, _ => by cases hsub
  | k :: rest, prev, a, b, hsub, hsorted, hov => by
    obtain ⟨klo, khi, kc⟩ := k
    rw [List.pairwise_cons] at hsorted
    rw [overlapScan_head_eq]
    cases hsub with
    | cons _ hsub' =>
      rw [overlapScan_err_of_sublist vals rest (some (khi, kc)) a b hsub'
        hsorted.2 hov]
      simp
    | cons₂ _ hsub' =>
      have hbmem : b ∈ rest := hsub'.subset (List.mem_singleton_self b)
      cases hr : rest with
      | nil => rw [hr] at hbmem; cases hbmem
      | cons r0 rest' =>
        subst hr
        have hr0b : r0.1 ≤ b.1 := by
          rcases List.mem_cons.mp hbmem with rfl | hb'
          · exact le_refl _
          · exact ((List.pairwise_cons.mp hsorted.2).1 b hb')
        obtain ⟨rlo, rhi, rc⟩ := r0
        rw [overlapScan_head_eq]
        rw [overlapCheckOne_isSome_of_prev vals rlo rhi khi kc
          (le_trans hr0b hov)]
        simp

/-- C3: a malformed case list — two default labels, two equal converted
singleton values, or a (range, singleton) or (range, range) overlap among
the kept ranges — makes the case list erroneous, and an erroneous case list
causes `ActOnFinishSwitchStmt` to discard the entire switch statement and
return the invalid sentinel; a successfully returned switch always carries
its full, unrepaired label list. -/
theorem switch_error_discards_whole (cond : SwitchCond) (ls : List SwitchLabel) :
    (2 ≤ ls.countP isDefaultLbl →
      (finishSwitchAnalysis cond ls).erroneous = true) ∧
    (¬ (((ls.filterMap (singletonEntry cond.width cond.signd)).map
          Prod.fst).Nodup) →
      (finishSwitchAnalysis cond ls).erroneous = true) ∧
    ((∃ r ∈ switchKeptRanges cond ls, ∃ p ∈ switchSortedVals cond ls,
        r.1 ≤ p.1 ∧ p.1 ≤ r.2.1) →
      (finishSwitchAnalysis cond ls).erroneous = true) ∧
    ((∃ a b, List.Sublist [a, b] (switchKeptRanges cond ls) ∧ b.1 ≤ a.2.1) →
      (finishSwitchAnalysis cond ls).erroneous = true) ∧
    (∀ (st : FuncScopeState) (sw : SwitchNode) (rest : List SwitchNode)
        (body : Nat),
      st.switchStack = sw :: rest →
      ((finishSwitchAnalysis sw.cond sw.labels).erroneous = true →
        (actOnFinishSwitchStmt st body).result = none) ∧
      (∀ n, (actOnFinishSwitchStmt st body).result = some n →
        n.labels = sw.labels)) := by
  refine ⟨?_, ?_, ?_, ?_, ?_⟩
  · intro h
    rw [finishSwitch_erroneous_eq, scanLabels_erroneous, decide_eq_true h]
    simp
  · intro h
    refine erroneous_of_dup cond ls (fun hnd => h ?_)
    have hperm : (switchSortedVals cond ls).Perm
        (ls.filterMap (singletonEntry cond.width cond.signd)) := by
      unfold switchSortedVals sortCaseVals
      rw [scanLabels_caseVals]
      exact List.perm_insertionSort caseLE _
    exact ((hperm.map Prod.fst).nodup_iff).mp hnd
  · rintro ⟨r, hr, p, hp, hlo, hhi⟩
    rw [finishSwitch_erroneous_eq]
    rw [overlapScan_err_of_val (switchSortedVals cond ls)
      (switchKeptRanges cond ls) none r p hr hp
      (sortedVals_pairwise_le cond ls) hlo hhi]
    simp
  · rintro ⟨a, b, hsub, hov⟩
    rw [finishSwitch_erroneous_eq]
    rw [overlapScan_err_of_sublist (switchSortedVals cond ls)
      (switchKeptRanges cond ls) none a b hsub
      (switchKeptRanges_sorted cond ls) hov]
    simp
  · intro st sw rest body hst
    obtain ⟨stack⟩ := st
    simp only at hst
    subst hst
    constructor
    · intro herr
      simp [actOnFinishSwitchStmt, herr]
    · intro n hn
      simp only [actOnFinishSwitchStmt] at hn
      by_cases herr : (finishSwitchAnalysis sw.cond sw.labels).erroneous
      · rw [if_pos herr] at hn
        cases hn
      · rw [if_neg herr] at hn
        simp only [Option.some.injEq] at hn
        subst hn
        rfl

/-- C3, witness: a case list with two defaults is erroneous and the switch
is discarded. -/
theorem switch_error_discards_whole_witness :
    (finishSwitchAnalysis plainCond [.defaultLbl 1, .defaultLbl 2]).erroneous
      = true ∧
    (actOnFinishSwitchStmt
        ⟨[⟨plainCond, [.defaultLbl 1, .defaultLbl 2], none, false⟩]⟩ 5).result
      = none :=
  ⟨(switch_error_discards_whole plainCond
      [.defaultLbl 1, .defaultLbl 2]).1 (by decide),
    ((switch_error_discards_whole plainCond
        [.defaultLbl 1, .defaultLbl 2]).2.2.2.2
      ⟨[⟨plainCond, [.defaultLbl 1, .defaultLbl 2], none, false⟩]⟩
      ⟨plainCond, [.defaultLbl 1, .defaultLbl 2], none, false⟩ [] 5 rfl).1
      ((switch_error_discards_whole plainCond
        [.defaultLbl 1, .defaultLbl 2]).1 (by decide))⟩

theorem foldl_scanLabel_diags_shape (w : Nat) (sgn : Bool)
    (ls : List SwitchLabel) (st : LabelScan)
    (h : ∀ d ∈ st.diags, isEmptyRangeDiag d = false) :
    ∀ d ∈ (ls.foldl (scanLabel w sgn) st).diags, isEmptyRangeDiag d = false := by
  induction ls generalizing st with
  | nil => exact h
  | cons l ls ih =>
    rw [List.foldl_cons]
    refine ih _ ?_
    cases l with
    | defaultLbl loc =>
      cases hd : st.theDefault with
      | none => simpa [scanLabel, hd] using h
      | some prev =>
        simp only [scanLabel, hd]
        intro d hdm
        rcases List.mem_append.mp hdm with hdm | hdm
        · exact h d hdm
        · simp only [List.mem_singleton] at hdm
          subst hdm
          rfl
    | caseLbl c =>
      cases hd : c.hiVal <;> simpa [scanLabel, hd] using h

theorem findDupDiags_shape (l : List (Int × CaseLabel)) :
    ∀ d ∈ findDupDiags l, isEmptyRangeDiag d = false := by
  intro d hd
  obtain ⟨a, b, _, _, hdd⟩ := findDupDiags_sound l d hd
  subst hdd
  unfold dupDiagFor
  split <;> rfl

theorem overlapScan_diags_shape (vals : List (Int × CaseLabel)) :
    ∀ (ks : List (Int × Int × CaseLabel)) (prev : Option (Int × CaseLabel)),
      ∀ d ∈ (overlapScan vals ks prev).1, isEmptyRangeDiag d = false
  | [], _, d, hd => by cases hd
  | (lo, hi, c) :: rest, prev, d, hd => by
    have hsplit : (overlapScan vals ((lo, hi, c) :: rest) prev).1
        = (match overlapCheckOne vals lo hi prev with
           | some (v, oc) => [SwitchDiag.duplicateCaseRange c.loc oc.loc v]
           | none => []) ++ (overlapScan vals rest (some (hi, c))).1 := rfl
    rw [hsplit] at hd
    rcases List.mem_append.mp hd with hd | hd
    · rcases ho : overlapCheckOne vals lo hi prev with _ | ⟨v, oc⟩
      · rw [ho] at hd
        cases hd
      · rw [ho] at hd
        simp only [List.mem_singleton] at hd
        subst hd
        rfl
    · exact overlapScan_diags_shape vals rest (some (hi, c)) d hd

theorem warnOpt_shape (o : Option Int) (loc : Nat) (v : Int) (d : SwitchDiag)
    (hd : d ∈ (match o with
      | none => [SwitchDiag.notInEnum loc v]
      | some e => if e ≠ v then [SwitchDiag.notInEnum loc v] else [])) :
    d = SwitchDiag.notInEnum loc v := by
  rcases o with _ | e
  · simpa using hd
  · have hd' : d ∈ (if e ≠ v then [SwitchDiag.notInEnum loc v] else []) := hd
    by_cases h : e ≠ v
    · rw [if_pos h] at hd'
      simpa using hd'
    · rw [if_neg h] at hd'
      cases hd'

theorem warnOptLt_shape (o : Option Int) (loc : Nat) (v : Int) (d : SwitchDiag)
    (hd : d ∈ (match o with
      | none => [SwitchDiag.notInEnum loc v]
      | some e => if v < e then [SwitchDiag.notInEnum loc v] else [])) :
    d = SwitchDiag.notInEnum loc v := by
  rcases o with _ | e
  · simpa using hd
  · have hd' : d ∈ (if v < e then [SwitchDiag.notInEnum loc v] else []) := hd
    by_cases h : v < e
    · rw [if_pos h] at hd'
      simpa using hd'
    · rw [if_neg h] at hd'
      cases hd' 

theorem scanCaseValsNotInEnum_shape :
    ∀ (cs : List (Int × CaseLabel)) (eis : List Int),
      ∀ d ∈ scanCaseValsNotInEnum eis cs, isEmptyRangeDiag d = false
  | [], _, d, hd => by cases hd
  | (v, c) :: cs, eis, d, hd => by
    have hsplit : scanCaseValsNotInEnum eis ((v, c) :: cs)
        = (match (eis.dropWhile (fun e => decide (e < v))).head? with
           | none => [SwitchDiag.notInEnum c.loc v]
           | some e => if v < e then [SwitchDiag.notInEnum c.loc v] else [])
          ++ scanCaseValsNotInEnum (eis.dropWhile (fun e => decide (e < v))) cs
        := rfl
    rw [hsplit] at hd
    rcases List.mem_append.mp hd with hd | hd
    · rw [warnOptLt_shape _ _ _ d hd]
      rfl
    · exact scanCaseValsNotInEnum_shape cs _ d hd

theorem scanRangesNotInEnum_shape :
    ∀ (rs : List (Int × Int × CaseLabel)) (eis : List Int),
      ∀ d ∈ scanRangesNotInEnum eis rs, isEmptyRangeDiag d = false
  | [], eis, d, hd => by
    cases eis with
    | nil => cases hd
    | cons e es => cases hd
  | r :: rs, [], d, hd => by cases hd
  | (lo, hi, c) :: rs, e0 :: es, d, hd => by
    have hsplit : scanRangesNotInEnum (e0 :: es) ((lo, hi, c) :: rs)
        = (match ((e0 :: es).dropWhile (fun e => decide (e < lo))).head? with
           | none => [SwitchDiag.notInEnum c.loc lo]
           | some e => if e ≠ lo then [SwitchDiag.notInEnum c.loc lo] else [])
          ++ (match (((e0 :: es).dropWhile (fun e => decide (e < lo))).dropWhile
                (fun e => decide (e < hi))).head? with
              | none => [SwitchDiag.notInEnum c.loc hi]
              | some e => if e ≠ hi then [SwitchDiag.notInEnum c.loc hi] else [])
          ++ scanRangesNotInEnum (((e0 :: es).dropWhile
                (fun e => decide (e < lo))).dropWhile (fun e => decide (e < hi)))
              rs := rfl
    rw [hsplit] at hd
    rcases List.mem_append.mp hd with hd | hd
    · rcases List.mem_append.mp hd with hd | hd
      · rw [warnOpt_shape _ _ _ d hd]
        rfl
      · rw [warnOpt_shape _ _ _ d hd]
        rfl
    · exact scanRangesNotInEnum_shape rs _ d hd

theorem scanLabels_diags_shape (w : Nat) (sgn : Bool) (ls : List SwitchLabel) :
    ∀ d ∈ (scanLabels w sgn ls).diags, isEmptyRangeDiag d = false :=
  foldl_scanLabel_diags_shape w sgn ls labelScanInit (fun d hd => by cases hd)

theorem mem_ite_cases {α : Type} {P : Prop} [Decidable P] {x : α}
    {l m : List α} (hd : x ∈ (if P then l else m)) : x ∈ l ∨ x ∈ m := by
  split at hd
  · exact Or.inl hd
  · exact Or.inr hd

theorem switchConstCondDiags_shape (cond : SwitchCond) (ls : List SwitchLabel) :
    ∀ d ∈ switchConstCondDiags cond ls, isEmptyRangeDiag d = false := by
  intro d hd
  unfold switchConstCondDiags at hd
  rcases h : cond.constVal with _ | cv
  · rw [h] at hd
    cases hd
  · rw [h] at hd
    rcases mem_ite_cases hd with hd2 | hd2
    · simp only [List.mem_singleton] at hd2
      subst hd2
      rfl
    · cases hd2

theorem enumAnalysis_fst (w : Nat) (sgn : Bool) (enums : List EnumConst)
    (sortedVals : List (Int × CaseLabel)) (kept : List (Int × Int × CaseLabel))
    (theDefault : Option Nat) :
    (enumAnalysis w sgn enums sortedVals kept theDefault).1
      = scanCaseValsNotInEnum ((switchEnumUniq w sgn enums).map Prod.fst)
          sortedVals
        ++ scanRangesNotInEnum ((switchEnumUniq w sgn enums).map Prod.fst) kept
        ++ (match theDefault with
            | some dloc =>
              if scanUnhandledEnum sortedVals kept (switchEnumUniq w sgn enums)
                  = [] then
                [SwitchDiag.unreachableDefault dloc]
              else []
            | none => [])
        ++ (if scanUnhandledEnum sortedVals kept (switchEnumUniq w sgn enums)
              = [] then []
            else [SwitchDiag.missingCases theDefault.isSome
                (scanUnhandledEnum sortedVals kept
                  (switchEnumUniq w sgn enums)).length
                ((scanUnhandledEnum sortedVals kept
                  (switchEnumUniq w sgn enums)).take 3)]) := rfl

theorem enumAnalysis_snd (w : Nat) (sgn : Bool) (enums : List EnumConst)
    (sortedVals : List (Int × CaseLabel)) (kept : List (Int × Int × CaseLabel))
    (theDefault : Option Nat) :
    (enumAnalysis w sgn enums sortedVals kept theDefault).2
      = (scanUnhandledEnum sortedVals kept (switchEnumUniq w sgn enums)).isEmpty
      := rfl

theorem enumAnalysis_diags_shape (w : Nat) (sgn : Bool) (enums : List EnumConst)
    (sortedVals : List (Int × CaseLabel)) (kept : List (Int × Int × CaseLabel))
    (theDefault : Option Nat) :
    ∀ d ∈ (enumAnalysis w sgn enums sortedVals kept theDefault).1,
      isEmptyRangeDiag d = false := by
  intro d hd
  rw [enumAnalysis_fst] at hd
  simp only [List.mem_append] at hd
  rcases hd with ((hd | hd) | hd) | hd
  · exact scanCaseValsNotInEnum_shape _ _ d hd
  · exact scanRangesNotInEnum_shape _ _ d hd
  · rcases theDefault with _ | dloc
    · cases hd
    · rcases mem_ite_cases hd with hd2 | hd2
      · simp only [List.mem_singleton] at hd2
        subst hd2
        rfl
      · cases hd2
  · rcases mem_ite_cases hd with hd2 | hd2
    · cases hd2
    · simp only [List.mem_singleton] at hd2
      subst hd2
      rfl

theorem switchEnumResult_diags_shape (cond : SwitchCond) (ls : List SwitchLabel) :
    ∀ d ∈ (switchEnumResult cond ls).1, isEmptyRangeDiag d = false := by
  intro d hd
  unfold switchEnumResult at hd
  rcases h : cond.enumInfo with _ | enums
  · rw [h] at hd
    cases hd
  · rw [h] at hd
    have hd2 : d ∈ (if (!switchErroneous cond ls
          && !switchHasConstCond cond ls) = true then
        enumAnalysis cond.width cond.signd enums (switchSortedVals cond ls)
          (switchKeptRanges cond ls)
          (scanLabels cond.width cond.signd ls).theDefault
      else (([], false) : List SwitchDiag × Bool)).1 := hd
    by_cases hg : (!switchErroneous cond ls && !switchHasConstCond cond ls)
        = true
    · rw [if_pos hg] at hd2
      exact enumAnalysis_diags_shape _ _ _ _ _ _ d hd2
    · rw [if_neg hg] at hd2
      exact absurd hd2 (List.not_mem_nil d)

theorem finishSwitch_diags_eq (cond : SwitchCond) (ls : List SwitchLabel) :
    (finishSwitchAnalysis cond ls).diags
      = (scanLabels cond.width cond.signd ls).diags
        ++ findDupDiags (switchSortedVals cond ls)
        ++ switchRangeDiags cond ls
        ++ (overlapScan (switchSortedVals cond ls)
              (switchKeptRanges cond ls) none).1
        ++ switchConstCondDiags cond ls
        ++ (switchEnumResult cond ls).1 := rfl

theorem countP_eq_zero_of_shape {l : List SwitchDiag}
    (h : ∀ d ∈ l, isEmptyRangeDiag d = false) :
    l.countP isEmptyRangeDiag = 0 := by
  rw [List.countP_eq_zero]
  intro a ha
  simp [h a ha]

theorem countP_filterMap_rangeEntry (w : Nat) (sgn : Bool) :
    ∀ ls : List SwitchLabel,
      (ls.filterMap (rangeEntry w sgn)).countP (isDegenerate w sgn)
        = ls.countP (isDegenerateLabel w sgn)
  | [] => rfl
  | l :: ls => by
    have ih := countP_filterMap_rangeEntry w sgn ls
    cases l with
    | defaultLbl loc =>
      simp [List.filterMap_cons, rangeEntry, List.countP_cons,
        isDegenerateLabel, ih]
    | caseLbl c =>
      cases h : c.hiVal with
      | none =>
        simp [List.filterMap_cons, rangeEntry, h, List.countP_cons,
          isDegenerateLabel, ih]
      | some hv =>
        simp [List.filterMap_cons, rangeEntry, h, List.countP_cons,
          isDegenerateLabel, isDegenerate, ih]

/-- C5: a range case whose converted low value exceeds its converted high
value is dropped by the empty-range loop with exactly one advisory each —
the total number of empty-range advisories emitted by the whole analysis
equals the number of degenerate range labels — and the kept-range list
consumed by the overlap checking and enum analysis is exactly the list of
non-degenerate ranges, each satisfying low ≤ high. -/
theorem switch_empty_range_dropped (cond : SwitchCond) (ls : List SwitchLabel) :
    switchRangeDiags cond ls
      = ((sortCaseRanges (scanLabels cond.width cond.signd ls).caseRanges).filter
          (isDegenerate cond.width cond.signd)).map
          (fun p => SwitchDiag.emptyRange p.2.loc) ∧
    switchKeptRanges cond ls
      = ((sortCaseRanges (scanLabels cond.width cond.signd ls).caseRanges).filter
          (fun p => !isDegenerate cond.width cond.signd p)).map
          (fun p => (p.1, toCondWidth cond.width cond.signd (p.2.hiVal.getD 0),
            p.2)) ∧
    (∀ r ∈ switchKeptRanges cond ls, r.1 ≤ r.2.1) ∧
    ((finishSwitchAnalysis cond ls).diags.countP isEmptyRangeDiag
      = ls.countP (isDegenerateLabel cond.width cond.signd)) ∧
    (∀ c : CaseLabel, SwitchLabel.caseLbl c ∈ ls →
      isDegenerateLabel cond.width cond.signd (SwitchLabel.caseLbl c) = true →
      SwitchDiag.emptyRange c.loc ∈ (finishSwitchAnalysis cond ls).diags) := by
  have h1 : switchRangeDiags cond ls
      = ((sortCaseRanges (scanLabels cond.width cond.signd ls).caseRanges).filter
          (isDegenerate cond.width cond.signd)).map
          (fun p => SwitchDiag.emptyRange p.2.loc) := by
    unfold switchRangeDiags
    rw [processRanges_eq]
  have h2 : switchKeptRanges cond ls
      = ((sortCaseRanges (scanLabels cond.width cond.signd ls).caseRanges).filter
          (fun p => !isDegenerate cond.width cond.signd p)).map
          (fun p => (p.1, toCondWidth cond.width cond.signd (p.2.hiVal.getD 0),
            p.2)) := by
    unfold switchKeptRanges
    rw [processRanges_eq]
  refine ⟨h1, h2, ?_, ?_, ?_⟩
  · intro r hr
    rw [h2] at hr
    obtain ⟨p, hp, rfl⟩ := List.mem_map.mp hr
    have hpf := (List.mem_filter.mp hp).2
    simp only [Bool.not_eq_true', isDegenerate, decide_eq_false_iff_not,
      not_lt] at hpf
    exact hpf
  · rw [finishSwitch_diags_eq]
    rw [List.countP_append, List.countP_append, List.countP_append,
      List.countP_append, List.countP_append]
    rw [countP_eq_zero_of_shape (scanLabels_diags_shape _ _ _),
      countP_eq_zero_of_shape (findDupDiags_shape _),
      countP_eq_zero_of_shape (overlapScan_diags_shape _ _ _),
      countP_eq_zero_of_shape (switchConstCondDiags_shape _ _),
      countP_eq_zero_of_shape (switchEnumResult_diags_shape _ _)]
    rw [h1, List.countP_map]
    have hall : ((sortCaseRanges
          (scanLabels cond.width cond.signd ls).caseRanges).filter
          (isDegenerate cond.width cond.signd)).countP
          (isEmptyRangeDiag ∘ fun p => SwitchDiag.emptyRange p.2.loc)
        = ((sortCaseRanges
          (scanLabels cond.width cond.signd ls).caseRanges).filter
          (isDegenerate cond.width cond.signd)).length := by
      rw [List.countP_eq_length]
      intro a _
      rfl
    rw [hall, ← List.countP_eq_length_filter]
    have hperm := (List.perm_insertionSort caseLE
      (scanLabels cond.width cond.signd ls).caseRanges).countP_eq
      (isDegenerate cond.width cond.signd)
    unfold sortCaseRanges
    rw [hperm, scanLabels_caseRanges, countP_filterMap_rangeEntry]
    omega
  · intro c hc hdeg
    rcases hh : c.hiVal with _ | hv
    · rw [isDegenerateLabel, hh] at hdeg
      cases hdeg
    · have hentry : (toCondWidth cond.width cond.signd c.loVal, c)
          ∈ (scanLabels cond.width cond.signd ls).caseRanges := by
        rw [scanLabels_caseRanges]
        exact List.mem_filterMap.mpr ⟨SwitchLabel.caseLbl c, hc,
          by simp [rangeEntry, hh]⟩
      have hsorted : (toCondWidth cond.width cond.signd c.loVal, c)
          ∈ sortCaseRanges (scanLabels cond.width cond.signd ls).caseRanges :=
        ((List.perm_insertionSort caseLE _).mem_iff).mpr hentry
      have hdeg' : isDegenerate cond.width cond.signd
          (toCondWidth cond.width cond.signd c.loVal, c) = true := by
        rw [isDegenerateLabel, hh] at hdeg
        simp only [isDegenerate, hh]
        exact hdeg
      have hfil : (toCondWidth cond.width cond.signd c.loVal, c)
          ∈ (sortCaseRanges
              (scanLabels cond.width cond.signd ls).caseRanges).filter
              (isDegenerate cond.width cond.signd) :=
        List.mem_filter.mpr ⟨hsorted, hdeg'⟩
      have hmem : SwitchDiag.emptyRange c.loc ∈ switchRangeDiags cond ls := by
        rw [h1]
        exact List.mem_map.mpr ⟨_, hfil, rfl⟩
      rw [finishSwitch_diags_eq]
      simp [List.mem_append, hmem]

theorem spawnCount_peelRHS : ∀ e : CExpr, spawnCount (peelRHS e) = spawnCount e
  | .castE e => by
    rw [peelRHS]
    exact spawnCount_peelRHS e
  | .spawnCall _ _ => rfl
  | .call _ => rfl
  | .assign _ _ => rfl
  | .binOp _ _ => rfl
  | .litE => rfl
  | .varE => rfl

mutual

theorem helperHasSpawn_iff : ∀ e : CExpr,
    helperHasSpawn e = false ↔ spawnCount e = 0
  | .spawnCall b args => by
    show true = false ↔ 1 + spawnCountList args = 0
    exact iff_of_false (by simp) (by omega)
  | .call args => by
    show helperHasSpawnList args = false ↔ spawnCountList args = 0
    exact helperHasSpawnList_iff args
  | .assign l r => by
    show (helperHasSpawn l || helperHasSpawn r) = false
      ↔ spawnCount l + spawnCount r = 0
    rw [Bool.or_eq_false_iff, helperHasSpawn_iff l, helperHasSpawn_iff r]
    omega
  | .binOp l r => by
    show (helperHasSpawn l || helperHasSpawn r) = false
      ↔ spawnCount l + spawnCount r = 0
    rw [Bool.or_eq_false_iff, helperHasSpawn_iff l, helperHasSpawn_iff r]
    omega
  | .castE e => by
    show helperHasSpawn e = false ↔ spawnCount e = 0
    exact helperHasSpawn_iff e
  | .litE => by simp [helperHasSpawn, spawnCount]
  | .varE => by simp [helperHasSpawn, spawnCount]

theorem helperHasSpawnList_iff : ∀ es : List CExpr,
    helperHasSpawnList es = false ↔ spawnCountList es = 0
  | [] => by simp [helperHasSpawnList, spawnCountList]
  | e :: es => by
    show (helperHasSpawn e || helperHasSpawnList es) = false
      ↔ spawnCount e + spawnCountList es = 0
    rw [Bool.or_eq_false_iff, helperHasSpawn_iff e, helperHasSpawnList_iff es]
    omega

end

theorem handleSpawnRHS_iff (r : CExpr) :
    handleSpawnRHS r = false
      ↔ spawnCount r = (match peelRHS r with
          | CExpr.spawnCall _ _ => 1
          | _ => 0) := by
  have hcr := spawnCount_peelRHS r
  unfold handleSpawnRHS
  cases hp : peelRHS r with
  | spawnCall b args =>
    rw [hp] at hcr
    show helperHasSpawnList args = false ↔ spawnCount r = 1
    rw [helperHasSpawnList_iff]
    rw [show spawnCount (CExpr.spawnCall b args) = 1 + spawnCountList args
      from rfl] at hcr
    omega
  | call args =>
    rw [hp] at hcr
    show helperHasSpawn (CExpr.call args) = false ↔ spawnCount r = 0
    rw [helperHasSpawn_iff, hcr]
  | assign l' r' =>
    rw [hp] at hcr
    show helperHasSpawn (CExpr.assign l' r') = false ↔ spawnCount r = 0
    rw [helperHasSpawn_iff, hcr]
  | binOp l' r' =>
    rw [hp] at hcr
    show helperHasSpawn (CExpr.binOp l' r') = false ↔ spawnCount r = 0
    rw [helperHasSpawn_iff, hcr]
  | castE e' =>
    rw [hp] at hcr
    show helperHasSpawn (CExpr.castE e') = false ↔ spawnCount r = 0
    rw [helperHasSpawn_iff, hcr]
  | litE =>
    rw [hp] at hcr
    show helperHasSpawn CExpr.litE = false ↔ spawnCount r = 0
    rw [helperHasSpawn_iff, hcr]
  | varE =>
    rw [hp] at hcr
    show helperHasSpawn CExpr.varE = false ↔ spawnCount r = 0
    rw [helperHasSpawn_iff, hcr]

theorem permitted_le_spawnCount : ∀ S : CStmt,
    permittedSpawnCount S ≤ spawnCountStmt S
  | .compoundS => Nat.le_refl 0
  | .nullS => Nat.le_refl 0
  | .exprS e => by
    cases e with
    | spawnCall b args =>
      show 1 ≤ 1 + spawnCountList args
      omega
    | assign l r =>
      have hcr := spawnCount_peelRHS r
      show (match peelRHS r with | CExpr.spawnCall _ _ => 1 | _ => 0)
        ≤ spawnCount l + spawnCount r
      cases hp : peelRHS r with
      | spawnCall b args =>
        rw [hp] at hcr
        rw [show spawnCount (CExpr.spawnCall b args) = 1 + spawnCountList args
          from rfl] at hcr
        show 1 ≤ spawnCount l + spawnCount r
        omega
      | call args => exact Nat.zero_le _
      | assign l' r' => exact Nat.zero_le _
      | binOp l' r' => exact Nat.zero_le _
      | castE e' => exact Nat.zero_le _
      | litE => exact Nat.zero_le _
      | varE => exact Nat.zero_le _
    | call args => exact Nat.zero_le _
    | binOp l r => exact Nat.zero_le _
    | castE e' => exact Nat.zero_le _
    | litE => exact Nat.zero_le _
    | varE => exact Nat.zero_le _
  | .declS st none => Nat.le_refl 0
  | .declS st (some i) => by
    have hcr := spawnCount_peelRHS i
    show (match peelRHS i with | CExpr.spawnCall _ _ => 1 | _ => 0)
      ≤ spawnCount i
    cases hp : peelRHS i with
    | spawnCall b args =>
      rw [hp] at hcr
      rw [show spawnCount (CExpr.spawnCall b args) = 1 + spawnCountList args
        from rfl] at hcr
      show 1 ≤ spawnCount i
      omega
    | call args => exact Nat.zero_le _
    | assign l' r' => exact Nat.zero_le _
    | binOp l' r' => exact Nat.zero_le _
    | castE e' => exact Nat.zero_le _
    | litE => exact Nat.zero_le _
    | varE => exact Nat.zero_le _
  | .ifS c t e => by
    have ht := permitted_le_spawnCount t
    have he := permitted_le_spawnCount e
    show permittedSpawnCount t + permittedSpawnCount e
      ≤ spawnCount c + spawnCountStmt t + spawnCountStmt e
    omega
  | .whileS c b => by
    have hb := permitted_le_spawnCount b
    show permittedSpawnCount b ≤ spawnCount c + spawnCountStmt b
    omega

theorem diagnoseCilkSpawnErr_iff : ∀ S : CStmt,
    diagnoseCilkSpawnErr S = false
      ↔ spawnCountStmt S = permittedSpawnCount S
  | .compoundS => by simp [diagnoseCilkSpawnErr, spawnCountStmt,
      permittedSpawnCount]
  | .nullS => by simp [diagnoseCilkSpawnErr, spawnCountStmt,
      permittedSpawnCount]
  | .exprS e => by
    cases e with
    | spawnCall b args =>
      show helperHasSpawnList args = false ↔ 1 + spawnCountList args = 1
      rw [helperHasSpawnList_iff]
      omega
    | call args =>
      show helperHasSpawnList args = false ↔ spawnCountList args = 0
      exact helperHasSpawnList_iff args
    | assign l r =>
      show (helperHasSpawn l || handleSpawnRHS r) = false
        ↔ spawnCount l + spawnCount r
            = (match peelRHS r with | CExpr.spawnCall _ _ => 1 | _ => 0)
      rw [Bool.or_eq_false_iff, helperHasSpawn_iff l, handleSpawnRHS_iff r]
      have hcr := spawnCount_peelRHS r
      cases hp : peelRHS r with
      | spawnCall b args =>
        rw [hp] at hcr
        rw [show spawnCount (CExpr.spawnCall b args) = 1 + spawnCountList args
          from rfl] at hcr
        show (spawnCount l = 0 ∧ spawnCount r = 1)
          ↔ spawnCount l + spawnCount r = 1
        omega
      | call args =>
        show (spawnCount l = 0 ∧ spawnCount r = 0)
          ↔ spawnCount l + spawnCount r = 0
        omega
      | assign l' r' =>
        show (spawnCount l = 0 ∧ spawnCount r = 0)
          ↔ spawnCount l + spawnCount r = 0
        omega
      | binOp l' r' =>
        show (spawnCount l = 0 ∧ spawnCount r = 0)
          ↔ spawnCount l + spawnCount r = 0
        omega
      | castE e' =>
        show (spawnCount l = 0 ∧ spawnCount r = 0)
          ↔ spawnCount l + spawnCount r = 0
        omega
      | litE =>
        show (spawnCount l = 0 ∧ spawnCount r = 0)
          ↔ spawnCount l + spawnCount r = 0
        omega
      | varE =>
        show (spawnCount l = 0 ∧ spawnCount r = 0)
          ↔ spawnCount l + spawnCount r = 0
        omega
    | binOp l r =>
      show helperHasSpawn (CExpr.binOp l r) = false
        ↔ spawnCount (CExpr.binOp l r) = 0
      rw [helperHasSpawn_iff]
    | castE e' =>
      show helperHasSpawn (CExpr.castE e') = false
        ↔ spawnCount (CExpr.castE e') = 0
      rw [helperHasSpawn_iff]
    | litE =>
      simp [diagnoseCilkSpawnErr, spawnCountStmt, permittedSpawnCount,
        spawnCount]
    | varE =>
      simp [diagnoseCilkSpawnErr, spawnCountStmt, permittedSpawnCount,
        spawnCount]
  | .declS st none => by
    simp [diagnoseCilkSpawnErr, spawnCountStmt, permittedSpawnCount]
  | .declS st (some i) => by
    show handleSpawnRHS i = false
      ↔ spawnCount i
          = (match peelRHS i with | CExpr.spawnCall _ _ => 1 | _ => 0)
    exact handleSpawnRHS_iff i
  | .ifS c t e => by
    have iht := diagnoseCilkSpawnErr_iff t
    have ihe := diagnoseCilkSpawnErr_iff e
    have hpt := permitted_le_spawnCount t
    have hpe := permitted_le_spawnCount e
    show (helperHasSpawn c || diagnoseCilkSpawnErr t
        || diagnoseCilkSpawnErr e) = false
      ↔ spawnCount c + spawnCountStmt t + spawnCountStmt e
          = permittedSpawnCount t + permittedSpawnCount e
    rw [Bool.or_eq_false_iff, Bool.or_eq_false_iff, helperHasSpawn_iff c,
      iht, ihe]
    omega
  | .whileS c b => by
    have ihb := diagnoseCilkSpawnErr_iff b
    have hpb := permitted_le_spawnCount b
    show (helperHasSpawn c || diagnoseCilkSpawnErr b) = false
      ↔ spawnCount c + spawnCountStmt b = permittedSpawnCount b
    rw [Bool.or_eq_false_iff, helperHasSpawn_iff c, ihb]
    omega

/-- C7: a statement of a spawn-bearing compound block passes
`DiagnoseCilkSpawn` without the spawn-position hard error exactly when every
spawn call it contains occupies a permitted position — the whole expression
statement, the whole (peeled) right-hand side of a simple assignment, or the
sole (peeled) initializer of a single-variable declaration; in particular
`a = spawn_call() + 1;` is a hard error while the three permitted forms are
accepted. -/
theorem spawn_position_checking :
    (∀ S : CStmt, diagnoseCilkSpawnErr S = false
      ↔ spawnCountStmt S = permittedSpawnCount S) ∧
    diagnoseCilkSpawnErr
        (.exprS (.assign .varE (.binOp (.spawnCall false []) .litE))) = true ∧
    diagnoseCilkSpawnErr (.exprS (.spawnCall false [.varE])) = false ∧
    diagnoseCilkSpawnErr
        (.exprS (.assign .varE (.castE (.spawnCall false [.varE])))) = false ∧
    diagnoseCilkSpawnErr (.declS false (some (.spawnCall false [.varE])))
      = false :=
  ⟨diagnoseCilkSpawnErr_iff, rfl, rfl, rfl, rfl⟩

theorem head_dropWhile_pred_false {α : Type} (p : α → Bool) :
    ∀ (l : List α) (h : α), (l.dropWhile p).head? = some h → p h = false
  | [], _, hh => by cases hh
  | a :: t, h, hh => by
    cases hpa : p a with
    | true =>
      rw [List.dropWhile_cons, if_pos hpa] at hh
      exact head_dropWhile_pred_false p t h hh
    | false =>
      rw [List.dropWhile_cons, if_neg (by simp [hpa])] at hh
      simp only [List.head?_cons, Option.some.injEq] at hh
      subst hh
      exact hpa

theorem mem_dropWhile_of_pred_false {α : Type} (p : α → Bool) :
    ∀ (l : List α) (x : α), x ∈ l → p x = false → x ∈ l.dropWhile p
  | [], x, hx, _ => absurd hx (List.not_mem_nil x)
  | a :: t, x, hx, hpx => by
    rcases List.mem_cons.mp hx with rfl | hxt
    · rw [List.dropWhile_cons, if_neg (by simp [hpx])]
      exact List.mem_cons_self _ _
    · cases hpa : p a with
      | true =>
        rw [List.dropWhile_cons, if_pos hpa]
        exact mem_dropWhile_of_pred_false p t x hxt hpx
      | false =>
        rw [List.dropWhile_cons, if_neg (by simp [hpa])]
        exact List.mem_cons_of_mem a hxt

theorem mem_sorted_iff_head_dropWhile (v : Int) (l : List Int)
    (hs : l.Pairwise (fun a b => a ≤ b)) :
    v ∈ l ↔ (l.dropWhile (fun e => decide (e < v))).head? = some v := by
  constructor
  · intro hmem
    have hvin : v ∈ l.dropWhile (fun e => decide (e < v)) :=
      mem_dropWhile_of_pred_false _ l v hmem (by simp)
    rcases hdw : l.dropWhile (fun e => decide (e < v)) with _ | ⟨h, t⟩
    · rw [hdw] at hvin
      cases hvin
    · have hh : decide (h < v) = false :=
        head_dropWhile_pred_false (fun e => decide (e < v)) l h (by rw [hdw]; rfl)
      have hhv : v ≤ h := le_of_not_lt (by simpa using hh)
      have hsub : (h :: t).Sublist l := by
        rw [← hdw]
        exact List.dropWhile_sublist _
      have hpw := List.Pairwise.sublist hsub hs
      rw [hdw] at hvin
      rcases List.mem_cons.mp hvin with rfl | hvt
      · rfl
      · have h1 : h ≤ v := (List.pairwise_cons.mp hpw).1 v hvt
        rw [le_antisymm h1 hhv]
        rfl
  · intro hh
    have hvin : v ∈ l.dropWhile (fun e => decide (e < v)) :=
      List.mem_of_mem_head? (Option.mem_def.mpr hh)
    exact (List.dropWhile_sublist _).subset hvin

theorem dedupFrom_sublist : ∀ (a : Int × String) (l : List (Int × String)),
    (dedupFrom a l).Sublist l
  | _, [] => List.Sublist.refl _
  | a, b :: rest => by
    rw [show dedupFrom a (b :: rest)
      = (if a.1 = b.1 then dedupFrom a rest else b :: dedupFrom b rest)
      from rfl]
    by_cases h : a.1 = b.1
    · rw [if_pos h]
      exact (dedupFrom_sublist a rest).trans (List.sublist_cons_self b rest)
    · rw [if_neg h]
      exact (dedupFrom_sublist b rest).cons₂ b

theorem dedupSorted_sublist : ∀ l : List (Int × String),
    (dedupSorted l).Sublist l
  | [] => List.Sublist.refl _
  | a :: rest => (dedupFrom_sublist a rest).cons₂ a

theorem switchEnumUniq_sorted (w : Nat) (sgn : Bool) (enums : List EnumConst) :
    (switchEnumUniq w sgn enums).Pairwise (fun a b => a.1 ≤ b.1) := by
  unfold switchEnumUniq
  refine List.Pairwise.sublist (dedupSorted_sublist _) ?_
  exact (List.sorted_insertionSort enumLE _).imp (fun h => h)

theorem switchEnumUniq_fst_sorted (w : Nat) (sgn : Bool)
    (enums : List EnumConst) :
    ((switchEnumUniq w sgn enums).map Prod.fst).Pairwise
      (fun a b => a ≤ b) :=
  List.Pairwise.map Prod.fst (fun _ _ h => h)
    (switchEnumUniq_sorted w sgn enums)

theorem switchKeptRanges_lo_le_hi (cond : SwitchCond) (ls : List SwitchLabel) :
    ∀ r ∈ switchKeptRanges cond ls, r.1 ≤ r.2.1 := by
  intro r hr
  unfold switchKeptRanges at hr
  rw [processRanges_eq] at hr
  obtain ⟨p, hp, hpr⟩ := List.mem_map.mp hr
  have hdeg : isDegenerate cond.width cond.signd p = false := by
    have := (List.mem_filter.mp hp).2
    simpa using this
  unfold isDegenerate at hdeg
  have : ¬ (toCondWidth cond.width cond.signd (p.2.hiVal.getD 0) < p.1) := by
    simpa using hdeg
  rw [← hpr]
  exact le_of_not_lt this

theorem overlapScan_gap (vals : List (Int × CaseLabel)) :
    ∀ (rs : List (Int × Int × CaseLabel)) (prev : Option (Int × CaseLabel)),
      (overlapScan vals rs prev).2 = false →
      (∀ r, rs.head? = some r → ∀ q, prev = some q → q.1 < r.1)
        ∧ List.Chain' (fun a b => a.2.1 < b.1) rs
  | [], _, _ => ⟨fun r hr => absurd hr (by simp), List.chain'_nil⟩
  | (lo, hi, c) :: rest, prev, h => by
    rw [overlapScan_head_eq, Bool.or_eq_false_iff] at h
    have ih := overlapScan_gap vals rest (some (hi, c)) h.2
    constructor
    · intro r hr q hq
      simp only [List.head?_cons, Option.some.injEq] at hr
      subst hr
      subst hq
      by_cases hle : lo ≤ q.1
      · exfalso
        have hsome : (overlapCheckOne vals lo hi (some q)).isSome = true :=
          overlapCheckOne_isSome_of_prev vals lo hi q.1 q.2 hle
        rw [h.1] at hsome
        simp at hsome
      · exact lt_of_not_le hle
    · rw [List.chain'_cons']
      refine ⟨?_, ih.2⟩
      intro y hy
      exact ih.1 y (Option.mem_def.mp hy) (hi, c) rfl

theorem scanCaseValsNotInEnum_eq :
    ∀ (cs : List (Int × CaseLabel)) (eis : List Int),
      eis.Pairwise (fun a b => a ≤ b) →
      cs.Pairwise (fun a b => a.1 ≤ b.1) →
      scanCaseValsNotInEnum eis cs
        = cs.filterMap (fun p =>
            if p.1 ∈ eis then none
            else some (SwitchDiag.notInEnum p.2.loc p.1))
  | [], _, _, _ => rfl
  | (v, c) :: cs, eis, hse, hsc => by
    have hsplit : scanCaseValsNotInEnum eis ((v, c) :: cs)
        = (match (eis.dropWhile (fun e => decide (e < v))).head? with
           | none => [SwitchDiag.notInEnum c.loc v]
           | some e => if v < e then [SwitchDiag.notInEnum c.loc v] else [])
          ++ scanCaseValsNotInEnum (eis.dropWhile (fun e => decide (e < v))) cs
        := rfl
    have hse' : (eis.dropWhile (fun e => decide (e < v))).Pairwise
        (fun a b => a ≤ b) :=
      List.Pairwise.sublist (List.dropWhile_sublist _) hse
    have hcs := List.pairwise_cons.mp hsc
    have ih := scanCaseValsNotInEnum_eq cs
      (eis.dropWhile (fun e => decide (e < v))) hse' hcs.2
    have htail : cs.filterMap (fun p =>
            if p.1 ∈ eis.dropWhile (fun e => decide (e < v)) then none
            else some (SwitchDiag.notInEnum p.2.loc p.1))
        = cs.filterMap (fun p =>
            if p.1 ∈ eis then none
            else some (SwitchDiag.notInEnum p.2.loc p.1)) := by
      apply List.filterMap_congr
      intro q hq
      have hvq : v ≤ q.1 := hcs.1 q hq
      by_cases hqm : q.1 ∈ eis
      · have hq' : q.1 ∈ eis.dropWhile (fun e => decide (e < v)) :=
          mem_dropWhile_of_pred_false _ eis q.1 hqm
            (by simp only [decide_eq_false_iff_not]; omega)

        rw [if_pos hq', if_pos hqm]
      · have hq' : q.1 ∉ eis.dropWhile (fun e => decide (e < v)) := fun hmem =>
          hqm ((List.dropWhile_sublist _).subset hmem)
        rw [if_neg hq', if_neg hqm]
    have hhead : (match (eis.dropWhile (fun e => decide (e < v))).head? with
           | none => [SwitchDiag.notInEnum c.loc v]
           | some e => if v < e then [SwitchDiag.notInEnum c.loc v] else [])
        = if v ∈ eis then [] else [SwitchDiag.notInEnum c.loc v] := by
      rcases hh : (eis.dropWhile (fun e => decide (e < v))).head? with _ | e
      · have hv : v ∉ eis := fun hmem => by
          rw [mem_sorted_iff_head_dropWhile v eis hse] at hmem
          rw [hmem] at hh
          cases hh
        show [SwitchDiag.notInEnum c.loc v]
          = if v ∈ eis then [] else [SwitchDiag.notInEnum c.loc v]
        rw [if_neg hv]
      · have hne : decide (e < v) = false :=
          head_dropWhile_pred_false _ eis e hh
        have hev : v ≤ e := le_of_not_lt (by simpa using hne)
        show (if v < e then [SwitchDiag.notInEnum c.loc v] else [])
          = if v ∈ eis then [] else [SwitchDiag.notInEnum c.loc v]
        by_cases hlt : v < e
        · have hv : v ∉ eis := fun hmem => by
            rw [mem_sorted_iff_head_dropWhile v eis hse] at hmem
            rw [hmem] at hh
            simp only [Option.some.injEq] at hh
            subst hh
            exact lt_irrefl v hlt
          rw [if_pos hlt, if_neg hv]
        · have he : e = v := le_antisymm (le_of_not_lt hlt) hev
          have hv : v ∈ eis := by
            rw [mem_sorted_iff_head_dropWhile v eis hse, hh, he]
          rw [if_neg hlt, if_pos hv]
    rw [hsplit, hhead, ih, htail]
    by_cases hv : v ∈ eis
    · simp [List.filterMap_cons, hv]
    · simp [List.filterMap_cons, hv]

theorem scanRangesNotInEnum_sound :
    ∀ (rs : List (Int × Int × CaseLabel)) (eis : List Int),
      eis.Pairwise (fun a b => a ≤ b) →
      List.Chain' (fun a b => a.2.1 < b.1) rs →
      (∀ r ∈ rs, r.1 ≤ r.2.1) →
      ∀ d ∈ scanRangesNotInEnum eis rs,
        ∃ loc v, d = SwitchDiag.notInEnum loc v ∧ v ∉ eis ∧
          ∀ r₀, rs.head? = some r₀ → r₀.1 ≤ v
  | [], eis, _, _, _, d, hd => by
    cases eis with
    | nil => cases hd
    | cons e es => cases hd
  | r :: rs, [], _, _, _, d, hd => by cases hd
  | (lo, hi, c) :: rs, e0 :: es, hse, hch, hlh, d, hd => by
    have hsplit : scanRangesNotInEnum (e0 :: es) ((lo, hi, c) :: rs)
        = (match ((e0 :: es).dropWhile (fun e => decide (e < lo))).head? with
           | none => [SwitchDiag.notInEnum c.loc lo]
           | some e => if e ≠ lo then [SwitchDiag.notInEnum c.loc lo] else [])
          ++ (match (((e0 :: es).dropWhile (fun e => decide (e < lo))).dropWhile
                (fun e => decide (e < hi))).head? with
              | none => [SwitchDiag.notInEnum c.loc hi]
              | some e => if e ≠ hi then [SwitchDiag.notInEnum c.loc hi] else [])
          ++ scanRangesNotInEnum (((e0 :: es).dropWhile
                (fun e => decide (e < lo))).dropWhile (fun e => decide (e < hi)))
              rs := rfl
    have hlohi : lo ≤ hi := hlh (lo, hi, c) (List.mem_cons_self _ _)
    have hse1 : ((e0 :: es).dropWhile (fun e => decide (e < lo))).Pairwise
        (fun a b => a ≤ b) :=
      List.Pairwise.sublist (List.dropWhile_sublist _) hse
    have hse2 : (((e0 :: es).dropWhile (fun e => decide (e < lo))).dropWhile
        (fun e => decide (e < hi))).Pairwise (fun a b => a ≤ b) :=
      List.Pairwise.sublist (List.dropWhile_sublist _) hse1
    rw [hsplit] at hd
    rcases List.mem_append.mp hd with hd | hd
    · rcases List.mem_append.mp hd with hd | hd
      · refine ⟨c.loc, lo, warnOpt_shape _ _ _ d hd, ?_, ?_⟩
        · intro hmem
          rw [mem_sorted_iff_head_dropWhile lo _ hse] at hmem
          rw [hmem] at hd
          have hd' : d ∈ (if (lo : Int) ≠ lo then [SwitchDiag.notInEnum c.loc lo]
              else []) := hd
          rw [if_neg (by simp)] at hd'
          cases hd'
        · intro r₀ h₀
          simp only [List.head?_cons, Option.some.injEq] at h₀
          subst h₀
          exact le_refl lo
      · refine ⟨c.loc, hi, warnOpt_shape _ _ _ d hd, ?_, ?_⟩
        · intro hmem
          have hmem1 : hi ∈ (e0 :: es).dropWhile (fun e => decide (e < lo)) :=
            mem_dropWhile_of_pred_false _ _ hi hmem
              (by simp only [decide_eq_false_iff_not]; omega)
          rw [mem_sorted_iff_head_dropWhile hi _ hse1] at hmem1
          rw [hmem1] at hd
          have hd' : d ∈ (if (hi : Int) ≠ hi then [SwitchDiag.notInEnum c.loc hi]
              else []) := hd
          rw [if_neg (by simp)] at hd'
          cases hd'
        · intro r₀ h₀
          simp only [List.head?_cons, Option.some.injEq] at h₀
          subst h₀
          exact hlohi
    · have hch' := List.chain'_cons'.mp hch
      have ih := scanRangesNotInEnum_sound rs _ hse2 hch'.2
        (fun r hr => hlh r (List.mem_cons_of_mem _ hr)) d hd
      obtain ⟨loc, v, hdv, hv2, hbound⟩ := ih
      cases rs with
      | nil =>
        have hnil : ∀ eis' : List Int, scanRangesNotInEnum eis' [] = [] :=
          fun eis' => by cases eis' <;> rfl
        rw [hnil] at hd
        cases hd
      | cons r' rs' =>
        have hr'v : r'.1 ≤ v := hbound r' rfl
        have hgap : hi < r'.1 := hch'.1 r' rfl
        have hvgt : hi < v := lt_of_lt_of_le hgap hr'v
        refine ⟨loc, v, hdv, ?_, ?_⟩
        · intro hmem
          have hmem1 : v ∈ (e0 :: es).dropWhile (fun e => decide (e < lo)) :=
            mem_dropWhile_of_pred_false _ _ v hmem
              (by simp only [decide_eq_false_iff_not]; omega)
          have hmem2 : v ∈ ((e0 :: es).dropWhile
              (fun e => decide (e < lo))).dropWhile (fun e => decide (e < hi)) :=
            mem_dropWhile_of_pred_false _ _ v hmem1
              (by simp only [decide_eq_false_iff_not]; omega)
          exact hv2 hmem2
        · intro r₀ h₀
          simp only [List.head?_cons, Option.some.injEq] at h₀
          subst h₀
          exact le_of_lt (lt_of_le_of_lt hlohi hvgt)

theorem any_dropWhile_eq {α : Type} (p q : α → Bool) (l : List α)
    (h : ∀ x ∈ l, q x = true → p x = false) :
    (l.dropWhile p).any q = l.any q := by
  cases hb : l.any q with
  | false =>
    refine List.any_eq_false.mpr fun x hx => ?_
    exact List.any_eq_false.mp hb x ((List.dropWhile_sublist _).subset hx)
  | true =>
    obtain ⟨x, hx, hqx⟩ := List.any_eq_true.mp hb
    exact List.any_eq_true.mpr
      ⟨x, mem_dropWhile_of_pred_false p l x hx (h x hx hqx), hqx⟩

theorem enumCovered_dropWhile_cs (ev w : Int) (cs : List (Int × CaseLabel))
    (rs : List (Int × Int × CaseLabel)) (hw : ev ≤ w) :
    enumCovered (cs.dropWhile (fun p => decide (p.1 < ev))) rs w
      = enumCovered cs rs w := by
  unfold enumCovered
  have h1 : (cs.dropWhile (fun p => decide (p.1 < ev))).any (fun q => q.1 == w)
      = cs.any (fun q => q.1 == w) := by
    apply any_dropWhile_eq
    intro x hx hqx
    have hxw : x.1 = w := by simpa using hqx
    simp only [decide_eq_false_iff_not]
    omega
  rw [h1]

theorem enumCovered_dropWhile_rs (ev w : Int) (cs : List (Int × CaseLabel))
    (rs : List (Int × Int × CaseLabel)) (hw : ev ≤ w) :
    enumCovered cs (rs.dropWhile (fun r => decide (r.2.1 < ev))) w
      = enumCovered cs rs w := by
  unfold enumCovered
  have h1 : (rs.dropWhile (fun r => decide (r.2.1 < ev))).any
        (fun r => decide (r.1 ≤ w) && decide (w ≤ r.2.1))
      = rs.any (fun r => decide (r.1 ≤ w) && decide (w ≤ r.2.1)) := by
    apply any_dropWhile_eq
    intro x hx hqx
    simp only [Bool.and_eq_true, decide_eq_true_eq] at hqx
    simp only [decide_eq_false_iff_not]
    omega
  rw [h1]

theorem pair_head_of_mem (ev : Int) (cs : List (Int × CaseLabel))
    (hs : cs.Pairwise (fun a b => a.1 ≤ b.1)) (q : Int × CaseLabel)
    (hq : q ∈ cs) (hqe : q.1 = ev) :
    ∃ p, (cs.dropWhile (fun p => decide (p.1 < ev))).head? = some p
      ∧ p.1 = ev := by
  have hqin : q ∈ cs.dropWhile (fun p => decide (p.1 < ev)) :=
    mem_dropWhile_of_pred_false _ cs q hq
      (by simp only [decide_eq_false_iff_not]; omega)
  rcases hdw : cs.dropWhile (fun p => decide (p.1 < ev)) with _ | ⟨h, t⟩
  · rw [hdw] at hqin
    cases hqin
  · have hh : decide (h.1 < ev) = false :=
      head_dropWhile_pred_false _ cs h (by rw [hdw]; rfl)
    have hub : ev ≤ h.1 := le_of_not_lt (by simpa using hh)
    have hsub : (h :: t).Sublist cs := by
      rw [← hdw]
      exact List.dropWhile_sublist _
    have hpw := List.Pairwise.sublist hsub hs
    rw [hdw] at hqin
    refine ⟨h, ?_, ?_⟩
    · rw [hdw]
      rfl
    · rcases List.mem_cons.mp hqin with rfl | hqt
      · exact hqe
      · have hle := (List.pairwise_cons.mp hpw).1 q hqt
        omega

theorem scanUnhandledEnum_eq :
    ∀ (es : List (Int × String)) (cs : List (Int × CaseLabel))
      (rs : List (Int × Int × CaseLabel)),
      cs.Pairwise (fun a b => a.1 ≤ b.1) →
      rs.Pairwise (fun a b => a.1 ≤ b.1) →
      es.Pairwise (fun a b => a.1 ≤ b.1) →
      scanUnhandledEnum cs rs es
        = (es.filter (fun p => !enumCovered cs rs p.1)).map Prod.snd
  | [], _, _, _, _, _ => rfl
  | (ev, en) :: es, cs, rs, hcs, hrs, hes => by
    have hsplit : scanUnhandledEnum cs rs ((ev, en) :: es)
        = (if (cs.dropWhile (fun p => decide (p.1 < ev))).head?.elim false
              (fun p => p.1 = ev) then
            scanUnhandledEnum (cs.dropWhile (fun p => decide (p.1 < ev))) rs es
          else
            (if (match (rs.dropWhile (fun r => decide (r.2.1 < ev))).head? with
                 | none => true
                 | some r => decide (ev < r.1)) = true then [en] else [])
              ++ scanUnhandledEnum (cs.dropWhile (fun p => decide (p.1 < ev)))
                  (rs.dropWhile (fun r => decide (r.2.1 < ev))) es) := rfl
    have hestail := List.pairwise_cons.mp hes
    have hev_le : ∀ x ∈ es, ev ≤ x.1 := hestail.1
    have hcs' : (cs.dropWhile (fun p => decide (p.1 < ev))).Pairwise
        (fun a b => a.1 ≤ b.1) :=
      List.Pairwise.sublist (List.dropWhile_sublist _) hcs
    have hrs' : (rs.dropWhile (fun r => decide (r.2.1 < ev))).Pairwise
        (fun a b => a.1 ≤ b.1) :=
      List.Pairwise.sublist (List.dropWhile_sublist _) hrs
    rw [hsplit]
    by_cases hc : (cs.dropWhile (fun p => decide (p.1 < ev))).head?.elim false
        (fun p => p.1 = ev)
    · rw [if_pos hc]
      rcases hh : (cs.dropWhile (fun p => decide (p.1 < ev))).head? with _ | q
      · rw [hh] at hc
        simp at hc
      · rw [hh] at hc
        simp at hc
        have hqmem : q ∈ cs := (List.dropWhile_sublist _).subset
          (List.mem_of_mem_head? (Option.mem_def.mpr hh))
        have hcov : enumCovered cs rs ev = true := by
          unfold enumCovered
          rw [Bool.or_eq_true]
          exact Or.inl (List.any_eq_true.mpr ⟨q, hqmem, by simp [hc]⟩)
        have ih := scanUnhandledEnum_eq es
          (cs.dropWhile (fun p => decide (p.1 < ev))) rs hcs' hrs hestail.2
        rw [ih, List.filter_cons,
          show enumCovered cs rs (ev, en).1 = true from hcov]
        simp only [Bool.not_true, Bool.false_eq_true, if_false]
        congr 1
        apply List.filter_congr
        intro x hx
        rw [enumCovered_dropWhile_cs ev x.1 cs rs (hev_le x hx)]
    · rw [if_neg hc]
      have hnocs : cs.any (fun q => q.1 == ev) = false := by
        cases hb : cs.any (fun q => q.1 == ev) with
        | false => rfl
        | true =>
          exfalso
          obtain ⟨q, hqm, hqe⟩ := List.any_eq_true.mp hb
          obtain ⟨p, hp, hpe⟩ := pair_head_of_mem ev cs hcs q hqm
            (by simpa using hqe)
          apply hc
          rw [hp]
          show decide (p.1 = ev) = true
          exact decide_eq_true hpe
      have ihbase := scanUnhandledEnum_eq es
        (cs.dropWhile (fun p => decide (p.1 < ev)))
        (rs.dropWhile (fun r => decide (r.2.1 < ev))) hcs' hrs' hestail.2
      rcases hrh : (rs.dropWhile (fun r => decide (r.2.1 < ev))).head? with _ | r₀
      · have hrs'nil : rs.dropWhile (fun r => decide (r.2.1 < ev)) = [] :=
          List.head?_eq_none_iff.mp hrh
        have hnors : rs.any (fun r => decide (r.1 ≤ ev) && decide (ev ≤ r.2.1))
            = false := by
          cases hb : rs.any (fun r => decide (r.1 ≤ ev) && decide (ev ≤ r.2.1))
            with
          | false => rfl
          | true =>
            exfalso
            obtain ⟨r, hrm, hre⟩ := List.any_eq_true.mp hb
            simp only [Bool.and_eq_true, decide_eq_true_eq] at hre
            have h2 : ev ≤ r.2.1 := hre.2
            have hrin : r ∈ rs.dropWhile (fun r => decide (r.2.1 < ev)) :=
              mem_dropWhile_of_pred_false _ rs r hrm
                (by simp only [decide_eq_false_iff_not]; omega)
            rw [hrs'nil] at hrin
            cases hrin
        have hcov : enumCovered cs rs ev = false := by
          unfold enumCovered
          rw [hnocs, hnors]
          rfl
        rw [hrh, ihbase, List.filter_cons,
          show enumCovered cs rs (ev, en).1 = false from hcov]
        simp only [Bool.not_false, if_true, List.map_cons,
          List.singleton_append]
        congr 1
        congr 1
        apply List.filter_congr
        intro x hx
        rw [enumCovered_dropWhile_cs ev x.1 cs
            (rs.dropWhile (fun r => decide (r.2.1 < ev))) (hev_le x hx),
          enumCovered_dropWhile_rs ev x.1 cs rs (hev_le x hx)]
      · have hr0 : decide (r₀.2.1 < ev) = false :=
          head_dropWhile_pred_false _ rs r₀ hrh
        have hr0hi : ev ≤ r₀.2.1 := le_of_not_lt (by simpa using hr0)
        by_cases hlt : ev < r₀.1
        · have hnors : rs.any
              (fun r => decide (r.1 ≤ ev) && decide (ev ≤ r.2.1)) = false := by
            cases hb : rs.any
                (fun r => decide (r.1 ≤ ev) && decide (ev ≤ r.2.1)) with
            | false => rfl
            | true =>
              exfalso
              obtain ⟨r, hrm, hre⟩ := List.any_eq_true.mp hb
              simp only [Bool.and_eq_true, decide_eq_true_eq] at hre
              have h1 : r.1 ≤ ev := hre.1
              have h2 : ev ≤ r.2.1 := hre.2
              have hrin : r ∈ rs.dropWhile (fun r => decide (r.2.1 < ev)) :=
                mem_dropWhile_of_pred_false _ rs r hrm
                  (by simp only [decide_eq_false_iff_not]; omega)
              rcases hdw : rs.dropWhile (fun r => decide (r.2.1 < ev))
                with _ | ⟨h0, t⟩
              · rw [hdw] at hrin
                cases hrin
              · rw [hdw] at hrh hrin
                simp only [List.head?_cons, Option.some.injEq] at hrh
                subst hrh
                have hsub : (h0 :: t).Sublist rs := by
                  rw [← hdw]
                  exact List.dropWhile_sublist _
                have hpw := List.Pairwise.sublist hsub hrs
                rcases List.mem_cons.mp hrin with rfl | hrt
                · omega
                · have := (List.pairwise_cons.mp hpw).1 r hrt
                  omega
          have hcov : enumCovered cs rs ev = false := by
            unfold enumCovered
            rw [hnocs, hnors]
            rfl
          rw [hrh]
          show (if decide (ev < r₀.1) = true then [en] else [])
              ++ scanUnhandledEnum (cs.dropWhile (fun p => decide (p.1 < ev)))
                  (rs.dropWhile (fun r => decide (r.2.1 < ev))) es
            = (((ev, en) :: es).filter
                (fun p => !enumCovered cs rs p.1)).map Prod.snd
          rw [decide_eq_true hlt, if_pos rfl, ihbase, List.filter_cons,
            show enumCovered cs rs (ev, en).1 = false from hcov]
          simp only [Bool.not_false, if_true, List.map_cons,
            List.singleton_append]
          congr 1
          congr 1
          apply List.filter_congr
          intro x hx
          rw [enumCovered_dropWhile_cs ev x.1 cs
              (rs.dropWhile (fun r => decide (r.2.1 < ev))) (hev_le x hx),
            enumCovered_dropWhile_rs ev x.1 cs rs (hev_le x hx)]
        · have hr0lo : r₀.1 ≤ ev := le_of_not_lt hlt
          have hr0mem : r₀ ∈ rs := (List.dropWhile_sublist _).subset
            (List.mem_of_mem_head? (Option.mem_def.mpr hrh))
          have hcov : enumCovered cs rs ev = true := by
            unfold enumCovered
            rw [Bool.or_eq_true]
            refine Or.inr (List.any_eq_true.mpr ⟨r₀, hr0mem, ?_⟩)
            simp [hr0lo, hr0hi]
          rw [hrh]
          show (if decide (ev < r₀.1) = true then [en] else [])
              ++ scanUnhandledEnum (cs.dropWhile (fun p => decide (p.1 < ev)))
                  (rs.dropWhile (fun r => decide (r.2.1 < ev))) es
            = (((ev, en) :: es).filter
                (fun p => !enumCovered cs rs p.1)).map Prod.snd
          rw [decide_eq_false hlt, if_neg (by simp), ihbase, List.filter_cons,
            show enumCovered cs rs (ev, en).1 = true from hcov]
          simp only [Bool.not_true, Bool.false_eq_true, if_false,
            List.nil_append]
          congr 1
          apply List.filter_congr
          intro x hx
          rw [enumCovered_dropWhile_cs ev x.1 cs
              (rs.dropWhile (fun r => decide (r.2.1 < ev))) (hev_le x hx),
            enumCovered_dropWhile_rs ev x.1 cs rs (hev_le x hx)]

theorem switchErroneous_false_overlap (cond : SwitchCond)
    (ls : List SwitchLabel) (herr : switchErroneous cond ls = false) :
    (overlapScan (switchSortedVals cond ls)
      (switchKeptRanges cond ls) none).2 = false := by
  unfold switchErroneous at herr
  exact (Bool.or_eq_false_iff.mp herr).2

theorem switchEnumResult_eq_of (cond : SwitchCond) (ls : List SwitchLabel)
    (enums : List EnumConst) (henum : cond.enumInfo = some enums)
    (herr : switchErroneous cond ls = false)
    (hcc : switchHasConstCond cond ls = false) :
    switchEnumResult cond ls
      = enumAnalysis cond.width cond.signd enums (switchSortedVals cond ls)
          (switchKeptRanges cond ls)
          (scanLabels cond.width cond.signd ls).theDefault := by
  unfold switchEnumResult
  rw [henum]
  show (if (!switchErroneous cond ls && !switchHasConstCond cond ls) = true
      then enumAnalysis cond.width cond.signd enums (switchSortedVals cond ls)
        (switchKeptRanges cond ls)
        (scanLabels cond.width cond.signd ls).theDefault
      else (([], false) : List SwitchDiag × Bool))
    = enumAnalysis cond.width cond.signd enums (switchSortedVals cond ls)
        (switchKeptRanges cond ls)
        (scanLabels cond.width cond.signd ls).theDefault
  rw [if_pos (by rw [herr, hcc]; rfl)]

theorem enumResult_mem_diags (cond : SwitchCond) (ls : List SwitchLabel)
    (d : SwitchDiag) (hd : d ∈ (switchEnumResult cond ls).1) :
    d ∈ (finishSwitchAnalysis cond ls).diags := by
  rw [finishSwitch_diags_eq]
  exact List.mem_append.mpr (Or.inr hd)

/-- C4: for a switch over an enumeration with no case-list error and no
constant-condition short cut, the singleton-value scan reports exactly the
sorted case values absent from the deduplicated sorted enumerator value set
(each as a warn_not_in_enum advisory in the emitted diagnostics); the
unhandled-enumerator scan collects exactly the names of the enumerators
covered neither by a singleton value nor by a kept range; the
all-enum-cases-covered flag is set exactly when every enumerator value is
covered; with a default label and full coverage the warn_unreachable_default
advisory is emitted; with missing enumerators a missing-cases advisory
carrying the presence of a default, the number of missing enumerators and
the first three missing names is emitted; and every advisory of the
range-endpoint scan names a value genuinely absent from the enumerator
value set. -/
theorem switch_enum_coverage (cond : SwitchCond) (ls : List SwitchLabel)
    (enums : List EnumConst) (henum : cond.enumInfo = some enums)
    (herr : switchErroneous cond ls = false)
    (hcc : switchHasConstCond cond ls = false) :
    scanCaseValsNotInEnum
        ((switchEnumUniq cond.width cond.signd enums).map Prod.fst)
        (switchSortedVals cond ls)
      = (switchSortedVals cond ls).filterMap (fun p =>
          if p.1 ∈ (switchEnumUniq cond.width cond.signd enums).map Prod.fst
          then none else some (SwitchDiag.notInEnum p.2.loc p.1))
    ∧ (∀ p ∈ switchSortedVals cond ls,
        p.1 ∉ (switchEnumUniq cond.width cond.signd enums).map Prod.fst →
        SwitchDiag.notInEnum p.2.loc p.1 ∈ (finishSwitchAnalysis cond ls).diags)
    ∧ scanUnhandledEnum (switchSortedVals cond ls) (switchKeptRanges cond ls)
        (switchEnumUniq cond.width cond.signd enums)
      = ((switchEnumUniq cond.width cond.signd enums).filter (fun p =>
          !enumCovered (switchSortedVals cond ls)
            (switchKeptRanges cond ls) p.1)).map Prod.snd
    ∧ ((finishSwitchAnalysis cond ls).allEnumCovered = true
        ↔ ∀ p ∈ switchEnumUniq cond.width cond.signd enums,
            enumCovered (switchSortedVals cond ls)
              (switchKeptRanges cond ls) p.1 = true)
    ∧ (∀ dloc, (scanLabels cond.width cond.signd ls).theDefault = some dloc →
        (finishSwitchAnalysis cond ls).allEnumCovered = true →
        SwitchDiag.unreachableDefault dloc
          ∈ (finishSwitchAnalysis cond ls).diags)
    ∧ (scanUnhandledEnum (switchSortedVals cond ls) (switchKeptRanges cond ls)
          (switchEnumUniq cond.width cond.signd enums) ≠ [] →
        SwitchDiag.missingCases
            (scanLabels cond.width cond.signd ls).theDefault.isSome
            (scanUnhandledEnum (switchSortedVals cond ls)
              (switchKeptRanges cond ls)
              (switchEnumUniq cond.width cond.signd enums)).length
            ((scanUnhandledEnum (switchSortedVals cond ls)
              (switchKeptRanges cond ls)
              (switchEnumUniq cond.width cond.signd enums)).take 3)
          ∈ (finishSwitchAnalysis cond ls).diags)
    ∧ (∀ d ∈ scanRangesNotInEnum
          ((switchEnumUniq cond.width cond.signd enums).map Prod.fst)
          (switchKeptRanges cond ls),
        ∃ loc v, d = SwitchDiag.notInEnum loc v ∧
          v ∉ (switchEnumUniq cond.width cond.signd enums).map Prod.fst) := by
  have hsvs := sortedVals_pairwise_le cond ls
  have hkept := switchKeptRanges_sorted cond ls
  have hkeptlh := switchKeptRanges_lo_le_hi cond ls
  have huniq := switchEnumUniq_sorted cond.width cond.signd enums
  have hevs := switchEnumUniq_fst_sorted cond.width cond.signd enums
  have hovl := switchErroneous_false_overlap cond ls herr
  have hchain := (overlapScan_gap (switchSortedVals cond ls)
    (switchKeptRanges cond ls) none hovl).2
  have h1 := scanCaseValsNotInEnum_eq (switchSortedVals cond ls)
    ((switchEnumUniq cond.width cond.signd enums).map Prod.fst) hevs hsvs
  have h3 := scanUnhandledEnum_eq (switchEnumUniq cond.width cond.signd enums)
    (switchSortedVals cond ls) (switchKeptRanges cond ls) hsvs hkept huniq
  have h7 := scanRangesNotInEnum_sound (switchKeptRanges cond ls)
    ((switchEnumUniq cond.width cond.signd enums).map Prod.fst) hevs hchain
    hkeptlh
  have henumres := switchEnumResult_eq_of cond ls enums henum herr hcc
  have hflag : (finishSwitchAnalysis cond ls).allEnumCovered
      = (scanUnhandledEnum (switchSortedVals cond ls)
          (switchKeptRanges cond ls)
          (switchEnumUniq cond.width cond.signd enums)).isEmpty := by
    show (switchEnumResult cond ls).2 = _
    rw [henumres, enumAnalysis_snd]
  refine ⟨h1, ?_, h3, ?_, ?_, ?_, ?_⟩
  · intro p hp hnot
    apply enumResult_mem_diags
    rw [henumres, enumAnalysis_fst]
    refine List.mem_append.mpr (Or.inl (List.mem_append.mpr (Or.inl
      (List.mem_append.mpr (Or.inl ?_)))))
    rw [h1]
    exact List.mem_filterMap.mpr ⟨p, hp, by rw [if_neg hnot]⟩
  · have hiff : (finishSwitchAnalysis cond ls).allEnumCovered = true
        ↔ scanUnhandledEnum (switchSortedVals cond ls)
            (switchKeptRanges cond ls)
            (switchEnumUniq cond.width cond.signd enums) = [] := by
      rw [hflag, List.isEmpty_iff]
    rw [hiff, h3, List.map_eq_nil_iff, List.filter_eq_nil_iff]
    constructor
    · intro h p hp
      have h2 := h p hp
      simpa using h2
    · intro h p hp
      simp [h p hp]
  · intro dloc hdflt hcovd
    apply enumResult_mem_diags
    rw [henumres, enumAnalysis_fst]
    refine List.mem_append.mpr (Or.inl (List.mem_append.mpr (Or.inr ?_)))
    rw [hdflt]
    have hunh : scanUnhandledEnum (switchSortedVals cond ls)
        (switchKeptRanges cond ls)
        (switchEnumUniq cond.width cond.signd enums) = [] := by
      rw [hflag] at hcovd
      exact List.isEmpty_iff.mp hcovd
    show SwitchDiag.unreachableDefault dloc
      ∈ (if scanUnhandledEnum (switchSortedVals cond ls)
            (switchKeptRanges cond ls)
            (switchEnumUniq cond.width cond.signd enums) = [] then
          [SwitchDiag.unreachableDefault dloc]
        else [])
    rw [if_pos hunh]
    exact List.mem_singleton.mpr rfl
  · intro hne
    apply enumResult_mem_diags
    rw [henumres, enumAnalysis_fst]
    refine List.mem_append.mpr (Or.inr ?_)
    rw [if_neg hne]
    exact List.mem_singleton.mpr rfl
  · intro d hd
    obtain ⟨loc, v, hdv, hv, _⟩ := h7 d hd
    exact ⟨loc, v, hdv, hv⟩

/-- Witness for C4 at a concrete switch over the two-enumerator enum with a
case value 3 (absent from the enum) and a default label: the hypotheses are
evaluated and the all-enum-cases-covered conjunct of the theorem is
instantiated. -/
theorem switch_enum_coverage_witness :
    c4cond.enumInfo = some c4enums
    ∧ switchErroneous c4cond c4wls = false
    ∧ switchHasConstCond c4cond c4wls = false
    ∧ ((finishSwitchAnalysis c4cond c4wls).allEnumCovered = true
        ↔ ∀ p ∈ switchEnumUniq c4cond.width c4cond.signd c4enums,
            enumCovered (switchSortedVals c4cond c4wls)
              (switchKeptRanges c4cond c4wls) p.1 = true) :=
  ⟨rfl, by decide, by decide,
    (switch_enum_coverage c4cond c4wls c4enums rfl (by decide)
      (by decide)).2.2.2.1⟩

/-- Counterexample to C4 as claimed: for the switch over enum {A = 0, B = 1}
with the two case ranges 0...5 and 7...8, the case list is error-free and
the condition is not constant, the kept range 7...8 has both endpoints
outside the enumerator value set, and yet the analysis emits no advisory
for them — the only emitted diagnostic is the warn_not_in_enum for the
first range's high endpoint 5 — because the range loop stops as soon as
the enumerator iterator is exhausted. -/
theorem switch_enum_coverage_counterexample :
    switchErroneous c4cond c4ls = false
    ∧ switchHasConstCond c4cond c4ls = false
    ∧ (7, 8, c4range2) ∈ switchKeptRanges c4cond c4ls
    ∧ (7 : Int) ∉ (switchEnumUniq c4cond.width c4cond.signd c4enums).map
        Prod.fst
    ∧ (8 : Int) ∉ (switchEnumUniq c4cond.width c4cond.signd c4enums).map
        Prod.fst
    ∧ ∀ d ∈ (finishSwitchAnalysis c4cond c4ls).diags,
        d = SwitchDiag.notInEnum 1 5 := by
  decide

end SwanClang
